import Mathlib

/-!
# Pebble entry point (`cmd/pebble/main.go`)

A shallow embedding of `main`: the Go standard-library helpers it calls
(`strconv.ParseBool`, `strconv.ParseInt`), the calls it makes into the other
packages recorded as a trace of events, and theorems about that trace.
-/

namespace Pebble

/-! ## strconv -/

namespace strconv

/-- Error kinds carried by a `*strconv.NumError`. -/
inductive NumError
  | ErrSyntax
  | ErrRange
  | ErrBitSize
  deriving DecidableEq, Repr

/-- Width of the Go type `int` on the target platform. -/
inductive Arch
  | bits32
  | bits64
  deriving DecidableEq, Repr

/-- Constant `strconv.IntSize`. -/
def IntSize : Arch → Nat
  | .bits32 => 32
  | .bits64 => 64

/-- Constant `maxUint64 = 1<<64 - 1`. -/
def maxUint64 : Nat := 2 ^ 64 - 1

/-- Function `lower(c) = c | ('x' - 'X')` on a byte. -/
def lower (c : Nat) : Nat := c ||| 0x20

/-- `strconv.ParseBool`: the switch over the twelve accepted spellings. -/
def ParseBool (str : String) : Bool × Option NumError :=
  if str = "1" ∨ str = "t" ∨ str = "T" ∨ str = "true" ∨ str = "TRUE" ∨ str = "True" then
    (true, none)
  else if str = "0" ∨ str = "f" ∨ str = "F" ∨ str = "false" ∨ str = "FALSE" ∨ str = "False" then
    (false, none)
  else
    (false, some .ErrSyntax)

/-- The digit switch inside the loop of `ParseUint` (with `base0 = false`, so
an underscore falls through to the remaining cases). -/
def digitVal (c : Nat) : Option Nat :=
  if 48 ≤ c ∧ c ≤ 57 then some (c - 48)
  else if 97 ≤ lower c ∧ lower c ≤ 122 then some (lower c - 97 + 10)
  else none

/-- The `for _, c := range []byte(s)` loop of `ParseUint` for base 10; the
second argument is the accumulator `n`, a `uint64`. -/
def parseUintLoop (cutoff maxVal : Nat) : List Char → Nat → Nat × Option NumError
  | [], n => (n, none)
  | c :: cs, n =>
    match digitVal c.toNat with
    | none => (0, some .ErrSyntax)
    | some d =>
      if d ≥ 10 then (0, some .ErrSyntax)
      else if n ≥ cutoff then (maxVal, some .ErrRange)
      else
        let n10 := (n * 10) % 2 ^ 64
        let n1 := (n10 + d) % 2 ^ 64
        if n1 < n10 ∨ n1 > maxVal then (maxVal, some .ErrRange)
        else parseUintLoop cutoff maxVal cs n1

/-- `strconv.ParseUint(s, 10, bitSize)`; the string is given as its list of
bytes so that `s[1:]` is the tail. -/
def ParseUint10 (arch : Arch) (s : List Char) (bitSize : Nat) : Nat × Option NumError :=
  if s = [] then (0, some .ErrSyntax)
  else if bitSize ≠ 0 ∧ bitSize > 64 then (0, some .ErrBitSize)
  else
    let bits := if bitSize = 0 then IntSize arch else bitSize
    let cutoff := maxUint64 / 10 + 1
    let maxVal := ((1 <<< bits) % 2 ^ 64 + 2 ^ 64 - 1) % 2 ^ 64
    parseUintLoop cutoff maxVal s 0

/-- Conversion `int64(un)` of a `uint64`. -/
def toInt64 (x : Int) : Int := (x + 2 ^ 63) % 2 ^ 64 - 2 ^ 63

/-- `strconv.ParseInt(s, 10, bitSize)`. -/
def ParseInt10 (arch : Arch) (s : String) (bitSize : Nat) : Int × Option NumError :=
  match s.toList with
  | [] => (0, some .ErrSyntax)
  | c :: cs =>
    let neg := decide (c ≠ '+') && decide (c = '-')
    let rest := if c = '+' then cs else if c = '-' then cs else c :: cs
    let r := ParseUint10 arch rest bitSize
    if r.2 ≠ none ∧ r.2 ≠ some .ErrRange then (0, r.2)
    else
      let bits := if bitSize = 0 then IntSize arch else bitSize
      let cutoff := (1 <<< (bits - 1)) % 2 ^ 64
      if !neg ∧ r.1 ≥ cutoff then (toInt64 (cutoff - 1 : Nat), some .ErrRange)
      else if neg ∧ r.1 > cutoff then (toInt64 (-toInt64 (cutoff : Nat)), some .ErrRange)
      else
        let n := toInt64 (r.1 : Nat)
        (if neg then toInt64 (-n) else n, none)

/-- Conversion `int(val)` of an `int64` on the given platform. -/
def toInt (arch : Arch) (v : Int) : Int :=
  (v + 2 ^ (IntSize arch - 1)) % 2 ^ IntSize arch - 2 ^ (IntSize arch - 1)

/-- Value of a string of decimal digits read left to right onto `acc`;
`none` when some byte is not one of `0` to `9`. -/
def digitsValue (acc : Nat) : List Char → Option Nat
  | [] => some acc
  | c :: cs =>
    if 48 ≤ c.toNat ∧ c.toNat ≤ 57 then digitsValue (acc * 10 + (c.toNat - 48)) cs
    else none

/-- The reading of "`s` parses as a base-10 integer `n` that fits in an
integer type of `bits` bits": an optional sign, then at least one decimal
digit, and the signed value lies in `[-2^(bits-1), 2^(bits-1))`. -/
def base10Int (bits : Nat) (s : String) : Option Int :=
  match s.toList with
  | [] => none
  | c :: cs =>
    let digits := if c = '+' ∨ c = '-' then cs else c :: cs
    if digits = [] then none
    else
      match digitsValue 0 digits with
      | none => none
      | some v =>
        let n : Int := if c = '-' then -(v : Int) else (v : Int)
        if -(2 : Int) ^ (bits - 1) ≤ n ∧ n < (2 : Int) ^ (bits - 1) then some n else none

/-- The successful result of a `(value, error)` pair. -/
def okValue (r : Int × Option NumError) : Option Int :=
  if r.2 = none then some r.1 else none

end strconv

/-! ## Data of the entry point -/

/-- A non-nil Go `error`; the nil error is `none : Option GoError`. -/
structure GoError where
  msg : String
  deriving DecidableEq, Repr

/-- The anonymous struct `config.Pebble`. The map `ExternalAccountMACKeys` is
given as its entries in the order in which `range` visits them in this run. -/
structure PebbleConfig where
  ListenAddress : String
  ManagementListenAddress : String
  HTTPPort : Int
  TLSPort : Int
  Certificate : String
  PrivateKey : String
  OCSPResponderURL : String
  ExternalAccountBindingRequired : Bool
  ExternalAccountMACKeys : List (String × String)
  DomainBlocklist : List String
  CertificateValidityPeriod : Nat
  deriving DecidableEq, Repr

/-- Type `config`. -/
structure config where
  Pebble : PebbleConfig
  deriving DecidableEq, Repr

/-- An operand of `logger.Printf`. -/
inductive Arg
  | str (s : String)
  | int (i : Int)
  | bool (b : Bool)
  deriving DecidableEq, Repr

/-- The two handlers obtained from the protocol engine. -/
inductive Handler
  | muxHandler
  | adminHandler
  deriving DecidableEq, Repr

/-- A call that `main` makes into another package, with its arguments (the
logger, store, CA and VA handles are left out) and, for the calls whose
error result `main` inspects, the error returned. -/
inductive Call
  | flagUsage
  | osExit (code : Int)
  | osGetenv (key : String)
  | logNew (pfx : String)
  | logPrintf (format : String) (args : List Arg)
  | logPrint (msg : String)
  | cmdReadConfigFile (filename : String) (err : Option GoError)
  | cmdFailOnError (err : Option GoError) (msg : String)
  | dbNewMemoryStore
  | pcaLoadExistCa (certificateValidityPeriod : Nat)
      (rootKeyPath rootCertPath rootKeyPassword tlsKeyPath tlsCertPath tlsKeyPassword : String)
  | pcaNew (ocspResponderURL : String) (alternateRoots chainLength : Int)
      (certificateValidityPeriod : Nat)
  | vaNew (httpPort tlsPort : Int) (strict : Bool) (customResolverAddr : String)
  | dbAddExternalAccountKeyByID (keyID key : String) (err : Option GoError)
  | dbAddBlockedDomain (name : String) (err : Option GoError)
  | wfeNew (strict requireEAB : Bool)
  | wfeHandler
  | wfeManagementHandler
  | httpListenAndServeTLS (addr certFile keyFile : String) (handler : Handler)
  deriving DecidableEq, Repr

/-- One step of the main goroutine: a call, or a `go` statement with the
calls the goroutine it starts makes when it runs to its end. -/
inductive Event
  | call (c : Call)
  | go (body : List Call)
  deriving DecidableEq, Repr

/-- Everything outside `main.go` that a run of `main` depends on. -/
structure World where
  /-- Platform width of `int`. -/
  arch : strconv.Arch
  /-- Value given to `-config` on the command line, if any. -/
  flagConfig : Option String
  /-- Value given to `-strict` on the command line, if any. -/
  flagStrict : Option Bool
  /-- Value given to `-dnsserver` on the command line, if any. -/
  flagDnsserver : Option String
  /-- Function `os.Getenv`: the empty string for an unset variable. -/
  getenv : String → String
  /-- Function `cmd.ReadConfigFile`: the struct it fills and its error. -/
  readConfigFile : String → config × Option GoError
  /-- Result of `db.AddExternalAccountKeyByID`. -/
  addExternalAccountKeyByID : String → String → Option GoError
  /-- Result of `db.AddBlockedDomain`. -/
  addBlockedDomain : String → Option GoError
  /-- Whether `cmd.FailOnError` ends the process on these arguments. -/
  failOnError : Option GoError → String → Bool
  /-- Result of `http.ListenAndServeTLS` on an address; `none` when it
  serves forever. -/
  listenAndServeTLS : String → Option GoError
  /-- The scheduler's choice when the admin goroutine ends the process: how
  many further events of the main goroutine still happen before it does. -/
  adminExitDelay : Nat
  /-- Function `path.Join` on two elements. -/
  pathJoin : String → String → String
  /-- Constant `wfe.RootCertPath`. -/
  RootCertPath : String
  /-- Constant `wfe.DirectoryPath`. -/
  DirectoryPath : String

/-! ## Runs -/

/-- A run of a piece of the program: the events it produced and its value,
`none` when control does not come back from it (the process ended inside it,
or a listener serves forever). Calls into other packages are taken to return,
except `os.Exit`, `cmd.FailOnError` and `http.ListenAndServeTLS`. -/
structure Run (α : Type) where
  trace : List Event
  value : Option α

namespace Run

/-- Return without an event. -/
def ret {α : Type} (a : α) : Run α := ⟨[], some a⟩

/-- Sequencing: what follows runs only if the process is still alive. -/
def andThen {α β : Type} (r : Run α) (f : α → Run β) : Run β :=
  match r.value with
  | none => ⟨r.trace, none⟩
  | some a => ⟨r.trace ++ (f a).trace, (f a).value⟩

instance : Monad Run where
  pure := ret
  bind := andThen

/-- A call that returns. -/
def emit (c : Call) : Run Unit := ⟨[.call c], some ()⟩

/-- A call that returns a value. -/
def emitRet {α : Type} (c : Call) (a : α) : Run α := ⟨[.call c], some a⟩

end Run

open Run

/-- Call of `os.Exit`: the process ends. -/
def osExit (code : Int) : Run Unit := ⟨[.call (.osExit code)], none⟩

/-- Call of `os.Getenv`. -/
def osGetenv (w : World) (key : String) : Run String :=
  emitRet (.osGetenv key) (w.getenv key)

/-- Call of `cmd.ReadConfigFile`. -/
def cmdReadConfigFile (w : World) (filename : String) : Run (config × Option GoError) :=
  emitRet (.cmdReadConfigFile filename (w.readConfigFile filename).2) (w.readConfigFile filename)

/-- Call of `cmd.FailOnError`. -/
def cmdFailOnError (w : World) (err : Option GoError) (msg : String) : Run Unit :=
  ⟨[.call (.cmdFailOnError err msg)], if w.failOnError err msg then none else some ()⟩

/-- Call of `logger.Printf`. -/
def logPrintf (format : String) (args : List Arg) : Run Unit :=
  emit (.logPrintf format args)

/-! ## main -/

/-- Lines 107-110: `for keyID, key := range c.Pebble.ExternalAccountMACKeys`. -/
def addExternalAccountKeys (w : World) : List (String × String) → Run Unit
  | [] => pure ()
  | (keyID, key) :: rest => do
    let err := w.addExternalAccountKeyByID keyID key
    emit (.dbAddExternalAccountKeyByID keyID key err)
    cmdFailOnError w err "Failed to add key to external account bindings"
    addExternalAccountKeys w rest

/-- Lines 112-115: `for _, domainName := range c.Pebble.DomainBlocklist`. -/
def addBlockedDomains (w : World) : List String → Run Unit
  | [] => pure ()
  | domainName :: rest => do
    let err := w.addBlockedDomain domainName
    emit (.dbAddBlockedDomain domainName err)
    cmdFailOnError w err "Failed to add domain to block list"
    addBlockedDomains w rest

/-- Lines 133-136: `for i := 0; i < alternateRoots; i++`, started at `i` with
a bound on the number of iterations still allowed. -/
def announceAlternateRoots (w : World) (addr : String) (alternateRoots : Int) :
    Nat → Int → Run Unit
  | 0, _ => pure ()
  | fuel + 1, i =>
    if i < alternateRoots then do
      logPrintf "Alternate (%d) root CA certificate available at: https://%s%s%d"
        [.int (i + 1), .str addr, .str w.RootCertPath, .int (i + 1)]
      announceAlternateRoots w addr alternateRoots fuel (i + 1)
    else pure ()

/-- A goroutine: the calls it makes when it runs to its end, in order, and
whether the last of them ends the process. -/
structure Goroutine where
  calls : List Call
  exits : Bool

/-- Lines 121-129: the goroutine started for the admin interface. When
`http.ListenAndServeTLS` returns, its error goes to `cmd.FailOnError`, which
may end the process. -/
def adminGoroutine (w : World) (c : config) : Goroutine :=
  match w.listenAndServeTLS c.Pebble.ManagementListenAddress with
  | none =>
    ⟨[.wfeManagementHandler,
      .httpListenAndServeTLS c.Pebble.ManagementListenAddress c.Pebble.Certificate
        c.Pebble.PrivateKey .adminHandler], false⟩
  | some e =>
    ⟨[.wfeManagementHandler,
      .httpListenAndServeTLS c.Pebble.ManagementListenAddress c.Pebble.Certificate
        c.Pebble.PrivateKey .adminHandler,
      .cmdFailOnError (some e) "Calling ListenAndServeTLS() for admin interface"],
      w.failOnError (some e) "Calling ListenAndServeTLS() for admin interface"⟩

/-- A `go` statement followed by the rest of the function that makes it. The
goroutine is started; when it ends the process, only the first `delay` events
of the rest still happen and control never comes back. -/
def goThen {α : Type} (g : Goroutine) (delay : Nat) (rest : Run α) : Run α :=
  if g.exits = true then
    ⟨.go g.calls :: rest.trace.take delay,
      if delay < rest.trace.length then none else rest.value⟩
  else
    ⟨.go g.calls :: rest.trace, rest.value⟩

/-- Lines 120-149 of `main`: the admin goroutine, the announcements and the
protocol listener. Lines 141-149 are bound to `serve` before the branch of
line 120, so that the statements that follow the `go` statement, up to the end
of `main`, can be handed to `goThen`. -/
def startListeners (w : World) (c : config) (alternateRoots : Int) : Run Unit :=
  let serve : Run Unit := do
    logPrintf "Listening on: %s\n" [.str c.Pebble.ListenAddress]
    logPrintf "ACME directory available at: https://%s%s"
      [.str c.Pebble.ListenAddress, .str w.DirectoryPath]
    emit (.httpListenAndServeTLS c.Pebble.ListenAddress c.Pebble.Certificate
      c.Pebble.PrivateKey .muxHandler)
    match w.listenAndServeTLS c.Pebble.ListenAddress with
    | none => (⟨[], none⟩ : Run Unit)
    | some e => cmdFailOnError w (some e) "Calling ListenAndServeTLS()"
  if c.Pebble.ManagementListenAddress ≠ "" then
    goThen (adminGoroutine w c) w.adminExitDelay do
      logPrintf "Management interface listening on: %s\n"
        [.str c.Pebble.ManagementListenAddress]
      logPrintf "Root CA certificate available at: https://%s%s0"
        [.str c.Pebble.ManagementListenAddress, .str w.RootCertPath]
      announceAlternateRoots w c.Pebble.ManagementListenAddress alternateRoots
        (alternateRoots.toNat + 1) 0
      serve
  else do
    emit (.logPrint "Management interface is disabled")
    serve

/-- Function `main` of `cmd/pebble/main.go`; its last part, lines 120-149, is
`startListeners`. -/
def main (w : World) : Run Unit := do
  let configFile := w.flagConfig.getD "test/config/pebble-config.json"
  let strictMode := w.flagStrict.getD false
  let resolverAddress := w.flagDnsserver.getD ""
  if configFile = "" then
    emit .flagUsage
    osExit 1
  emit (.logNew "Pebble ")
  logPrintf "Starting Pebble ACME server" []
  let (c, err) ← cmdReadConfigFile w configFile
  cmdFailOnError w err "Reading JSON config file into config structure"
  let alternateRootsVal ← osGetenv w "PEBBLE_ALTERNATE_ROOTS"
  let r := strconv.ParseInt10 w.arch alternateRootsVal 0
  let alternateRoots : Int :=
    if r.2 = none ∧ r.1 ≥ 0 then strconv.toInt w.arch r.1 else 0
  let r := strconv.ParseInt10 w.arch (← osGetenv w "PEBBLE_CHAIN_LENGTH") 0
  let chainLength : Int :=
    if r.2 = none ∧ r.1 ≥ 0 then strconv.toInt w.arch r.1 else 1
  emit .dbNewMemoryStore
  let r := strconv.ParseBool (← osGetenv w "USE_X_CA")
  let useXCA : Bool := if r.2 = none ∧ r.1 = true then true else false
  logPrintf "USE_X_CA is %t" [.bool useXCA]
  if useXCA = true then
    let val ← osGetenv w "PATH_X_CA"
    let pathXCA := if val ≠ "" then val else "/x-ca"
    logPrintf "PATH_X_CA is %s" [.str pathXCA]
    let r := strconv.ParseBool (← osGetenv w "IS_DES3_KEY")
    let (rootKeyPath, tlsKeyPath) :=
      if r.2 = none ∧ r.1 = true then
        (w.pathJoin pathXCA "ca/root-ca/private/root-ca-des3.key",
         w.pathJoin pathXCA "ca/tls-ca/private/tls-ca-des3.key")
      else
        (w.pathJoin pathXCA "ca/root-ca/private/root-ca.key",
         w.pathJoin pathXCA "ca/tls-ca/private/tls-ca.key")
    let rootCertPath := w.pathJoin pathXCA "ca/root-ca.crt"
    let rootKeyPassword ← osGetenv w "X_CA_ROOT_CA_PASSWORD"
    let tlsCertPath := w.pathJoin pathXCA "ca/tls-ca.crt"
    let tlsKeyPassword ← osGetenv w "X_CA_TLS_CA_PASSWORD"
    emit (.pcaLoadExistCa c.Pebble.CertificateValidityPeriod rootKeyPath rootCertPath
      rootKeyPassword tlsKeyPath tlsCertPath tlsKeyPassword)
  else
    emit (.pcaNew c.Pebble.OCSPResponderURL alternateRoots chainLength
      c.Pebble.CertificateValidityPeriod)
  emit (.vaNew c.Pebble.HTTPPort c.Pebble.TLSPort strictMode resolverAddress)
  addExternalAccountKeys w c.Pebble.ExternalAccountMACKeys
  addBlockedDomains w c.Pebble.DomainBlocklist
  emit (.wfeNew strictMode c.Pebble.ExternalAccountBindingRequired)
  emit .wfeHandler
  startListeners w c alternateRoots

/-- A world for the examples: every external call succeeds. -/
def demoWorld : World where
  arch := .bits64
  flagConfig := none
  flagStrict := none
  flagDnsserver := none
  getenv := fun k => if k = "PEBBLE_ALTERNATE_ROOTS" then "2" else ""
  readConfigFile := fun _ =>
    (⟨⟨"0.0.0.0:14000", "0.0.0.0:15000", 5002, 5001, "cert.pem", "key.pem", "", false,
       [("kid-1", "c2VjcmV0")], ["blocked-domain.example"], 0⟩⟩, none)
  addExternalAccountKeyByID := fun _ _ => none
  addBlockedDomain := fun _ => none
  failOnError := fun e _ => e.isSome
  listenAndServeTLS := fun _ => none
  adminExitDelay := 0
  pathJoin := fun a b => a ++ "/" ++ b
  RootCertPath := "/roots/"
  DirectoryPath := "/dir"


/-- A world in load-external mode: `USE_X_CA=1`, two alternate roots and a
chain length of three requested, an OCSP responder configured. -/
def loadWorld : World :=
  { demoWorld with
    getenv := fun k =>
      if k = "USE_X_CA" then "1"
      else if k = "PEBBLE_ALTERNATE_ROOTS" then "2"
      else if k = "PEBBLE_CHAIN_LENGTH" then "3"
      else ""
    readConfigFile := fun _ =>
      (⟨⟨"0.0.0.0:14000", "0.0.0.0:15000", 5002, 5001, "cert.pem", "key.pem",
         "http://ocsp.example", false, [], [], 7⟩⟩, none) }

/-- A world in generate mode with two alternate roots and a chain length of
three requested. -/
def genWorld : World :=
  { demoWorld with
    getenv := fun k =>
      if k = "PEBBLE_ALTERNATE_ROOTS" then "2"
      else if k = "PEBBLE_CHAIN_LENGTH" then "3"
      else "" }

/-- A world in load-external mode with its own key directory and
password-protected keys. -/
def des3World : World :=
  { demoWorld with
    getenv := fun k =>
      if k = "USE_X_CA" then "true"
      else if k = "PATH_X_CA" then "/data/ca"
      else if k = "IS_DES3_KEY" then "T"
      else if k = "X_CA_ROOT_CA_PASSWORD" then "root-secret"
      else if k = "X_CA_TLS_CA_PASSWORD" then "tls-secret"
      else "" }

/-- A world in which the second blocked domain is rejected by the store. -/
def failWorld : World :=
  { demoWorld with
    readConfigFile := fun _ =>
      (⟨⟨"0.0.0.0:14000", "0.0.0.0:15000", 5002, 5001, "cert.pem", "key.pem", "", false,
         [("kid-1", "c2VjcmV0")], ["a.example", "bad domain", "c.example"], 0⟩⟩, none)
    addBlockedDomain := fun d => if d = "bad domain" then some ⟨"invalid domain"⟩ else none }

/-- A world in which the admin address cannot be bound: the admin goroutine's
`http.ListenAndServeTLS` returns an error at once and its `cmd.FailOnError`
ends the process before the main goroutine takes another step. -/
def adminFailWorld : World :=
  { demoWorld with
    listenAndServeTLS := fun addr =>
      if addr = "0.0.0.0:15000" then some ⟨"bind: address already in use"⟩ else none
    adminExitDelay := 0 }

/-- A world in which `-config ""` was given on the command line. -/
def emptyFlagWorld : World :=
  { demoWorld with flagConfig := some "" }

/-! ## Views of a run, used to state and prove the properties -/

/-- The value of `*configFile` after `flag.Parse`. -/
def configFileOf (w : World) : String :=
  w.flagConfig.getD "test/config/pebble-config.json"

/-- The struct `c.Pebble` after `cmd.ReadConfigFile`. -/
def configOf (w : World) : PebbleConfig :=
  (w.readConfigFile (configFileOf w)).1.Pebble

/-- The error returned by `cmd.ReadConfigFile`. -/
def readErrOf (w : World) : Option GoError :=
  (w.readConfigFile (configFileOf w)).2

/-- The local `alternateRoots` after lines 64-68. -/
def alternateRootsOf (w : World) : Int :=
  if (strconv.ParseInt10 w.arch (w.getenv "PEBBLE_ALTERNATE_ROOTS") 0).2 = none ∧
      (strconv.ParseInt10 w.arch (w.getenv "PEBBLE_ALTERNATE_ROOTS") 0).1 ≥ 0 then
    strconv.toInt w.arch (strconv.ParseInt10 w.arch (w.getenv "PEBBLE_ALTERNATE_ROOTS") 0).1
  else 0

/-- The local `chainLength` after lines 70-73. -/
def chainLengthOf (w : World) : Int :=
  if (strconv.ParseInt10 w.arch (w.getenv "PEBBLE_CHAIN_LENGTH") 0).2 = none ∧
      (strconv.ParseInt10 w.arch (w.getenv "PEBBLE_CHAIN_LENGTH") 0).1 ≥ 0 then
    strconv.toInt w.arch (strconv.ParseInt10 w.arch (w.getenv "PEBBLE_CHAIN_LENGTH") 0).1
  else 1

/-- The condition of line 78, which sets `useXCA`. -/
def useXCAOf (w : World) : Prop :=
  (strconv.ParseBool (w.getenv "USE_X_CA")).2 = none ∧
    (strconv.ParseBool (w.getenv "USE_X_CA")).1 = true

instance (w : World) : Decidable (useXCAOf w) := by unfold useXCAOf; infer_instance

/-- The condition of line 90, which selects the `-des3` key files. -/
def isDes3Of (w : World) : Prop :=
  (strconv.ParseBool (w.getenv "IS_DES3_KEY")).2 = none ∧
    (strconv.ParseBool (w.getenv "IS_DES3_KEY")).1 = true

instance (w : World) : Decidable (isDes3Of w) := by unfold isDes3Of; infer_instance

/-- The local `pathXCA` after lines 83-86. -/
def pathXCAOf (w : World) : String :=
  if w.getenv "PATH_X_CA" = "" then "/x-ca" else w.getenv "PATH_X_CA"

/-- The call of `pca.LoadExistCa` on line 101. -/
def loadExistCaCall (w : World) : Call :=
  .pcaLoadExistCa (configOf w).CertificateValidityPeriod
    (if isDes3Of w then w.pathJoin (pathXCAOf w) "ca/root-ca/private/root-ca-des3.key"
      else w.pathJoin (pathXCAOf w) "ca/root-ca/private/root-ca.key")
    (w.pathJoin (pathXCAOf w) "ca/root-ca.crt")
    (w.getenv "X_CA_ROOT_CA_PASSWORD")
    (if isDes3Of w then w.pathJoin (pathXCAOf w) "ca/tls-ca/private/tls-ca-des3.key"
      else w.pathJoin (pathXCAOf w) "ca/tls-ca/private/tls-ca.key")
    (w.pathJoin (pathXCAOf w) "ca/tls-ca.crt")
    (w.getenv "X_CA_TLS_CA_PASSWORD")

/-- The call of `pca.New` on line 103. -/
def newCall (w : World) : Call :=
  .pcaNew (configOf w).OCSPResponderURL (alternateRootsOf w) (chainLengthOf w)
    (configOf w).CertificateValidityPeriod

/-- Events of lines 57-61. -/
def startEvents (w : World) : List Event :=
  [.call (.logNew "Pebble "),
   .call (.logPrintf "Starting Pebble ACME server" []),
   .call (.cmdReadConfigFile (configFileOf w) (readErrOf w))]

/-- The call of `cmd.FailOnError` on line 62. -/
def readFailEvent (w : World) : Event :=
  .call (.cmdFailOnError (readErrOf w) "Reading JSON config file into config structure")

/-- Events of lines 64-81. -/
def envEvents (w : World) : List Event :=
  [.call (.osGetenv "PEBBLE_ALTERNATE_ROOTS"),
   .call (.osGetenv "PEBBLE_CHAIN_LENGTH"),
   .call .dbNewMemoryStore,
   .call (.osGetenv "USE_X_CA"),
   .call (.logPrintf "USE_X_CA is %t" [.bool (decide (useXCAOf w))])]

/-- Events of lines 82-104. -/
def caEvents (w : World) : List Event :=
  if useXCAOf w then
    [.call (.osGetenv "PATH_X_CA"),
     .call (.logPrintf "PATH_X_CA is %s" [.str (pathXCAOf w)]),
     .call (.osGetenv "IS_DES3_KEY"),
     .call (.osGetenv "X_CA_ROOT_CA_PASSWORD"),
     .call (.osGetenv "X_CA_TLS_CA_PASSWORD"),
     .call (loadExistCaCall w)]
  else
    [.call (newCall w)]

/-- The call of `va.New` on line 105. -/
def vaEvent (w : World) : Event :=
  .call (.vaNew (configOf w).HTTPPort (configOf w).TLSPort (w.flagStrict.getD false)
    (w.flagDnsserver.getD ""))

/-- Events of lines 120-139, when nothing ends the process meanwhile. -/
def managementEvents (w : World) : List Event :=
  if (configOf w).ManagementListenAddress = "" then
    [.call (.logPrint "Management interface is disabled")]
  else
    .go (adminGoroutine w ⟨configOf w⟩).calls ::
    .call (.logPrintf "Management interface listening on: %s\n"
      [.str (configOf w).ManagementListenAddress]) ::
    .call (.logPrintf "Root CA certificate available at: https://%s%s0"
      [.str (configOf w).ManagementListenAddress, .str w.RootCertPath]) ::
    (announceAlternateRoots w (configOf w).ManagementListenAddress (alternateRootsOf w)
      ((alternateRootsOf w).toNat + 1) 0).trace

/-- Events of lines 141-149, when nothing ends the process meanwhile. -/
def listenEvents (w : World) : List Event :=
  [.call (.logPrintf "Listening on: %s\n" [.str (configOf w).ListenAddress]),
   .call (.logPrintf "ACME directory available at: https://%s%s"
     [.str (configOf w).ListenAddress, .str w.DirectoryPath]),
   .call (.httpListenAndServeTLS (configOf w).ListenAddress (configOf w).Certificate
     (configOf w).PrivateKey .muxHandler)] ++
  match w.listenAndServeTLS (configOf w).ListenAddress with
  | none => []
  | some e => [.call (.cmdFailOnError (some e) "Calling ListenAndServeTLS()")]

/-- Whether the admin goroutine is started and ends the process. -/
def adminExits (w : World) : Prop :=
  (configOf w).ManagementListenAddress ≠ "" ∧ (adminGoroutine w ⟨configOf w⟩).exits = true

instance (w : World) : Decidable (adminExits w) := by unfold adminExits; infer_instance

/-- Events of lines 120-149: cut short after the `go` statement and
`adminExitDelay` further events when the admin goroutine ends the process. -/
def serveTail (w : World) : List Event :=
  if adminExits w then (managementEvents w ++ listenEvents w).take (w.adminExitDelay + 1)
  else managementEvents w ++ listenEvents w

/-- Events of lines 117-149. -/
def serveEvents (w : World) : List Event :=
  .call (.wfeNew (w.flagStrict.getD false) (configOf w).ExternalAccountBindingRequired) ::
  .call .wfeHandler :: serveTail w

/-- Events of lines 107-149, after the CA and the VA have been set up. -/
def policyAndServeEvents (w : World) : List Event :=
  (addExternalAccountKeys w (configOf w).ExternalAccountMACKeys).trace ++
  match (addExternalAccountKeys w (configOf w).ExternalAccountMACKeys).value with
  | none => []
  | some _ =>
    (addBlockedDomains w (configOf w).DomainBlocklist).trace ++
    match (addBlockedDomains w (configOf w).DomainBlocklist).value with
    | none => []
    | some _ => serveEvents w

/-! ## Observations on a trace -/

/-- The calls an event stands for: the call itself, or the calls of the
goroutine it starts. -/
def Event.calls : Event → List Call
  | .call c => [c]
  | .go body => body

/-- All calls of a trace, those of the started goroutines included. -/
def allCalls : List Event → List Call
  | [] => []
  | e :: t => e.calls ++ allCalls t

/-- The bodies of the goroutines started in a trace. -/
def goBodies : List Event → List (List Call)
  | [] => []
  | .go body :: t => body :: goBodies t
  | .call _ :: t => goBodies t

/-- Whether a call is `pca.LoadExistCa`. -/
def Call.isLoadExistCa : Call → Bool
  | .pcaLoadExistCa .. => true
  | _ => false

/-- Whether a call is `pca.New`. -/
def Call.isPcaNew : Call → Bool
  | .pcaNew .. => true
  | _ => false

/-- Whether a call is one of the two constructors of the Issuance Engine. -/
def Call.isCAConstructor (c : Call) : Bool := c.isLoadExistCa || c.isPcaNew

/-- Whether a call is `wfe.New`. -/
def Call.isWfeNew : Call → Bool
  | .wfeNew .. => true
  | _ => false

/-- Whether a call is `http.ListenAndServeTLS`. -/
def Call.isListen : Call → Bool
  | .httpListenAndServeTLS .. => true
  | _ => false

/-- The error returned by a call of `cmd.ReadConfigFile`,
`db.AddExternalAccountKeyByID` or `db.AddBlockedDomain`. -/
def Call.returnedError : Call → Option GoError
  | .cmdReadConfigFile _ err => err
  | .dbAddExternalAccountKeyByID _ _ err => err
  | .dbAddBlockedDomain _ err => err
  | _ => none

/-- The entry added by a call of `db.AddExternalAccountKeyByID`. -/
def Call.externalAccountKey : Call → Option (String × String)
  | .dbAddExternalAccountKeyByID keyID key _ => some (keyID, key)
  | _ => none

/-- The entry added by a call of `db.AddBlockedDomain`. -/
def Call.blockedDomain : Call → Option String
  | .dbAddBlockedDomain name _ => some name
  | _ => none

/-- The file read by a call of `cmd.ReadConfigFile`. -/
def Call.configPath : Call → Option String
  | .cmdReadConfigFile filename _ => some filename
  | _ => none

/-- The values handed to a constructor of the Issuance Engine, in order (the
logger and the store are left out). -/
def Call.constructorArgs : Call → List Arg
  | .pcaLoadExistCa v rk rc rp tk tc tp =>
    [.int v, .str rk, .str rc, .str rp, .str tk, .str tc, .str tp]
  | .pcaNew o a c v => [.str o, .int a, .int c, .int v]
  | _ => []

/-- Modelled from the spec: package `ca` (`pca.New`, `pca.LoadExistCa`) is
not part of the source at hand. The number of chains a constructor of the
Issuance Engine is asked for: `pca.New` is asked for "a primary chain plus a
configurable number of alternate root chains", that is `alternateRoots + 1`;
`pca.LoadExistCa` is handed the key and certificate files of one root and one
intermediate, that is one chain. -/
def Call.chainsRequested : Call → Option Int
  | .pcaNew _ alternateRoots _ _ => some (alternateRoots + 1)
  | .pcaLoadExistCa .. => some 1
  | _ => none

/-- The root-certificate location announced by a call of `logger.Printf`:
what the two formats of lines 131 and 134 print after the listen address. -/
def Call.announcedRoot : Call → Option String
  | .logPrintf "Root CA certificate available at: https://%s%s0" [.str _, .str p] =>
    some (p ++ "0")
  | .logPrintf "Alternate (%d) root CA certificate available at: https://%s%s%d"
      [.int _, .str _, .str p, .int k] => some (p ++ toString k)
  | _ => none

/-- Whether a call is one the two policy loops make. -/
def Call.isPolicyCall : Call → Bool
  | .dbAddExternalAccountKeyByID .. => true
  | .dbAddBlockedDomain .. => true
  | .cmdFailOnError .. => true
  | _ => false

/-- Whether a call is one made from line 117 on, the admin goroutine
included. -/
def Call.isServeCall : Call → Bool
  | .wfeNew .. => true
  | .wfeHandler => true
  | .wfeManagementHandler => true
  | .httpListenAndServeTLS .. => true
  | .logPrintf .. => true
  | .logPrint .. => true
  | .cmdFailOnError .. => true
  | _ => false

/-- Whether a call is one made on lines 64-105, after the configuration has
been read and before the policy loops. -/
def Call.isBootstrapCall : Call → Bool
  | .osGetenv .. => true
  | .dbNewMemoryStore => true
  | .logPrintf .. => true
  | .pcaLoadExistCa .. => true
  | .pcaNew .. => true
  | .vaNew .. => true
  | _ => false

/-- Whether a call is `wfe.New` or `wfeImpl.Handler` (lines 117-118). -/
def Call.isWfeCall : Call → Bool
  | .wfeNew .. => true
  | .wfeHandler => true
  | _ => false

/-- Whether a call is made on lines 51-62, before the environment is read. -/
def Call.isStartCall : Call → Bool
  | .flagUsage => true
  | .osExit .. => true
  | .logNew .. => true
  | .logPrintf "Starting Pebble ACME server" [] => true
  | .cmdReadConfigFile .. => true
  | .cmdFailOnError .. => true
  | _ => false

/-- Whether a call belongs to the admin interface: `wfeImpl.ManagementHandler`
or `http.ListenAndServeTLS` with the admin handler. -/
def Call.isAdminCall : Call → Bool
  | .wfeManagementHandler => true
  | .httpListenAndServeTLS _ _ _ .adminHandler => true
  | _ => false

/-- Whether an event is a call of `http.ListenAndServeTLS` made by the main
goroutine. -/
def Event.isListenCall : Event → Bool
  | .call c => c.isListen
  | .go _ => false

/-- The reading of "every issuance setting is handed to the constructor that
`main` invokes": each constructor call of the run has the validity period, the
OCSP responder URL, the alternate-root count and the chain length among its
arguments. -/
def AllIssuanceSettingsPassed (w : World) : Prop :=
  ∀ c : Call, Event.call c ∈ (main w).trace → c.isCAConstructor = true →
    Arg.int (configOf w).CertificateValidityPeriod ∈ c.constructorArgs ∧
    Arg.str (configOf w).OCSPResponderURL ∈ c.constructorArgs ∧
    Arg.int (alternateRootsOf w) ∈ c.constructorArgs ∧
    Arg.int (chainLengthOf w) ∈ c.constructorArgs

/-- A trace stops right after a failed call: whatever call of
`cmd.ReadConfigFile`, `db.AddExternalAccountKeyByID` or `db.AddBlockedDomain`
returned an error, the one event after it is `cmd.FailOnError` on that
error. -/
def FailStop (t : List Event) : Prop :=
  ∀ (pre post : List Event) (c : Call) (err : GoError),
    t = pre ++ .call c :: post → c.returnedError = some err →
    ∃ m, post = [.call (.cmdFailOnError (some err) m)]

namespace Run

@[simp] theorem bind_eq {α β : Type} (r : Run α) (f : α → Run β) : (r >>= f) = andThen r f := rfl

@[simp] theorem pure_eq {α : Type} (a : α) : (pure a : Run α) = ret a := rfl

@[simp] theorem andThen_emit {β : Type} (c : Call) (f : Unit → Run β) :
    andThen (emit c) f = ⟨.call c :: (f ()).trace, (f ()).value⟩ := rfl

@[simp] theorem andThen_emitRet {α β : Type} (c : Call) (a : α) (f : α → Run β) :
    andThen (emitRet c a) f = ⟨.call c :: (f a).trace, (f a).value⟩ := rfl

@[simp] theorem andThen_ret {α β : Type} (a : α) (f : α → Run β) :
    andThen (ret a) f = f a := rfl

@[simp] theorem andThen_mk_none {α β : Type} (t : List Event) (f : α → Run β) :
    andThen (⟨t, none⟩ : Run α) f = ⟨t, none⟩ := rfl

@[simp] theorem andThen_mk_some {α β : Type} (t : List Event) (a : α) (f : α → Run β) :
    andThen (⟨t, some a⟩ : Run α) f = ⟨t ++ (f a).trace, (f a).value⟩ := rfl

end Run


namespace strconv

theorem digitVal_of_digit {c : Nat} (h : 48 ≤ c ∧ c ≤ 57) : digitVal c = some (c - 48) := by
  simp [digitVal, h]

theorem digitVal_of_not_digit {c : Nat} (h : ¬ (48 ≤ c ∧ c ≤ 57)) :
    digitVal c = none ∨ ∃ d, digitVal c = some d ∧ 10 ≤ d := by
  unfold digitVal
  rw [if_neg h]
  by_cases hl : 97 ≤ lower c ∧ lower c ≤ 122
  · right
    exact ⟨_, by rw [if_pos hl], by omega⟩
  · left
    rw [if_neg hl]

theorem digitsValue_ge : ∀ (cs : List Char) (n v : Nat), digitsValue n cs = some v → n ≤ v := by
  intro cs
  induction cs with
  | nil => intro n v h; simp [digitsValue] at h; omega
  | cons c cs ih =>
    intro n v h
    unfold digitsValue at h
    split at h
    · have := ih _ _ h
      omega
    · cases h

theorem cutoff_eq : maxUint64 / 10 + 1 = 1844674407370955162 := by decide

theorem parseUintLoop_spec (maxVal : Nat) (hmax : maxVal < 2 ^ 64) :
    ∀ (cs : List Char) (n : Nat), n ≤ maxVal →
      (∀ v, digitsValue n cs = some v →
        parseUintLoop (maxUint64 / 10 + 1) maxVal cs n =
          if v ≤ maxVal then (v, none) else (maxVal, some .ErrRange)) ∧
      (digitsValue n cs = none →
        (parseUintLoop (maxUint64 / 10 + 1) maxVal cs n).2 = some .ErrSyntax ∨
        parseUintLoop (maxUint64 / 10 + 1) maxVal cs n = (maxVal, some .ErrRange)) := by
  rw [cutoff_eq]
  intro cs
  induction cs with
  | nil =>
    intro n hn
    constructor
    · intro v hv
      simp [digitsValue] at hv
      subst hv
      simp [parseUintLoop, hn]
    · intro h
      simp [digitsValue] at h
  | cons c cs ih =>
    intro n hn
    by_cases hd : 48 ≤ c.toNat ∧ c.toNat ≤ 57
    · have hdv := digitVal_of_digit hd
      have hlt : ¬ (c.toNat - 48 ≥ 10) := by omega
      by_cases hcut : n ≥ 1844674407370955162
      · have hloop : parseUintLoop 1844674407370955162 maxVal (c :: cs) n
            = (maxVal, some .ErrRange) := by
          simp only [parseUintLoop, hdv, if_neg hlt, if_pos hcut]
        rw [hloop]
        constructor
        · intro v hv
          simp only [digitsValue, if_pos hd] at hv
          have := digitsValue_ge _ _ _ hv
          have : ¬ v ≤ maxVal := by omega
          rw [if_neg this]
        · intro _
          right; rfl
      · have h10 : (n * 10) % 2 ^ 64 = n * 10 := by
          apply Nat.mod_eq_of_lt; omega
        by_cases hov : ((n * 10 + (c.toNat - 48)) % 2 ^ 64 < n * 10 ∨
            (n * 10 + (c.toNat - 48)) % 2 ^ 64 > maxVal)
        · have hloop : parseUintLoop 1844674407370955162 maxVal (c :: cs) n
              = (maxVal, some .ErrRange) := by
            simp only [parseUintLoop, hdv, if_neg hlt, if_neg hcut, h10, if_pos hov]
          rw [hloop]
          constructor
          · intro v hv
            simp only [digitsValue, if_pos hd] at hv
            have := digitsValue_ge _ _ _ hv
            have : ¬ v ≤ maxVal := by omega
            rw [if_neg this]
          · intro _
            right; rfl
        · have hloop : parseUintLoop 1844674407370955162 maxVal (c :: cs) n
              = parseUintLoop 1844674407370955162 maxVal cs (n * 10 + (c.toNat - 48)) := by
            have hmod : (n * 10 + (c.toNat - 48)) % 2 ^ 64 = n * 10 + (c.toNat - 48) := by
              apply Nat.mod_eq_of_lt; omega
            rw [hmod] at hov
            simp only [parseUintLoop, hdv, if_neg hlt, if_neg hcut, h10, hmod, if_neg hov]
          rw [hloop]
          have hle : n * 10 + (c.toNat - 48) ≤ maxVal := by omega
          have := ih _ hle
          simpa only [digitsValue, if_pos hd] using this
    · constructor
      · intro v hv
        simp only [digitsValue, if_neg hd] at hv
        cases hv
      · intro _
        left
        rcases digitVal_of_not_digit hd with h | ⟨d, h, hge⟩
        · simp only [parseUintLoop, h]
        · simp only [parseUintLoop, h, if_pos (show d ≥ 10 from hge)]

theorem maxVal_eq (arch : Arch) :
    ((1 <<< IntSize arch) % 2 ^ 64 + 2 ^ 64 - 1) % 2 ^ 64 = 2 ^ IntSize arch - 1 := by
  cases arch <;> decide

theorem intCutoff_eq (arch : Arch) :
    (1 <<< (IntSize arch - 1)) % 2 ^ 64 = 2 ^ (IntSize arch - 1) := by
  cases arch <;> decide

theorem ParseUint10_spec (arch : Arch) (cs : List Char) (hne : cs ≠ []) :
    (∀ v, digitsValue 0 cs = some v →
      ParseUint10 arch cs 0 =
        if v ≤ 2 ^ IntSize arch - 1 then (v, none)
        else (2 ^ IntSize arch - 1, some .ErrRange)) ∧
    (digitsValue 0 cs = none →
      (ParseUint10 arch cs 0).2 = some .ErrSyntax ∨
      ParseUint10 arch cs 0 = (2 ^ IntSize arch - 1, some .ErrRange)) := by
  have hlt : 2 ^ IntSize arch - 1 < 2 ^ 64 := by cases arch <;> decide
  have h := parseUintLoop_spec (2 ^ IntSize arch - 1) hlt cs 0 (Nat.zero_le _)
  have hu : ParseUint10 arch cs 0 =
      parseUintLoop (maxUint64 / 10 + 1) (2 ^ IntSize arch - 1) cs 0 := by
    unfold ParseUint10
    rw [if_neg hne, if_neg (by omega), if_pos rfl]
    show parseUintLoop (maxUint64 / 10 + 1)
      (((1 <<< IntSize arch) % 2 ^ 64 + 2 ^ 64 - 1) % 2 ^ 64) cs 0 = _
    rw [maxVal_eq]
  rw [hu]
  exact h

theorem toInt64_of_range (x : Int) (h1 : -9223372036854775808 ≤ x) (h2 : x < 9223372036854775808) :
    toInt64 x = x := by
  unfold toInt64
  omega

theorem toInt64_neg_toInt64 (v : Nat) (h : v ≤ 9223372036854775808) :
    toInt64 (-toInt64 (v : Int)) = -(v : Int) := by
  unfold toInt64
  omega

theorem parseInt_core (arch : Arch) (neg : Bool) (ds : List Char) :
    okValue
      (if (ParseUint10 arch ds 0).2 ≠ none ∧ (ParseUint10 arch ds 0).2 ≠ some .ErrRange then
        (0, (ParseUint10 arch ds 0).2)
      else if (!neg) = true ∧ (ParseUint10 arch ds 0).1 ≥ (1 <<< (IntSize arch - 1)) % 2 ^ 64 then
        (toInt64 (((1 <<< (IntSize arch - 1)) % 2 ^ 64 - 1 : Nat) : Int), some .ErrRange)
      else if neg = true ∧ (ParseUint10 arch ds 0).1 > (1 <<< (IntSize arch - 1)) % 2 ^ 64 then
        (toInt64 (-toInt64 (((1 <<< (IntSize arch - 1)) % 2 ^ 64 : Nat) : Int)), some .ErrRange)
      else
        (if neg = true then toInt64 (-toInt64 ((ParseUint10 arch ds 0).1 : Int))
          else toInt64 ((ParseUint10 arch ds 0).1 : Int), none)) =
    if ds = [] then none
    else match digitsValue 0 ds with
      | none => none
      | some v =>
        if -(2 : Int) ^ (IntSize arch - 1) ≤ (if neg = true then -(v : Int) else (v : Int)) ∧
            (if neg = true then -(v : Int) else (v : Int)) < (2 : Int) ^ (IntSize arch - 1)
        then some (if neg = true then -(v : Int) else (v : Int)) else none := by
  rw [intCutoff_eq]
  by_cases hds : ds = []
  · subst hds
    simp [ParseUint10, okValue]
  · rw [if_neg hds]
    obtain ⟨h1, h2⟩ := ParseUint10_spec arch ds hds
    cases hv : digitsValue 0 ds with
    | none =>
      rcases h2 hv with h | h
      · simp [h, okValue]
      · rw [h]
        cases arch <;> cases neg <;> simp [okValue, IntSize]
    | some v =>
      rw [h1 v hv]
      by_cases hvm : v ≤ 2 ^ IntSize arch - 1
      · simp only [if_pos hvm]
        clear h1 h2
        cases arch <;> cases neg <;> simp [okValue, IntSize] at hvm ⊢
        · by_cases h : 2147483648 ≤ v
          · rw [if_pos h]; simp only [okValue]; rw [if_neg (by simp), if_neg (by omega)]
          · rw [if_neg h]; simp
            rw [toInt64_of_range _ (by omega) (by omega)]; simp; omega
        · by_cases h : 2147483648 < v
          · rw [if_pos h]; simp only [okValue]; rw [if_neg (by simp), if_neg (by omega)]
          · rw [if_neg h]; simp
            rw [toInt64_neg_toInt64 _ (by omega)]; simp; omega
        · by_cases h : 9223372036854775808 ≤ v
          · rw [if_pos h]; simp only [okValue]; rw [if_neg (by simp), if_neg (by omega)]
          · rw [if_neg h]; simp
            rw [toInt64_of_range _ (by omega) (by omega)]; simp; omega
        · by_cases h : 9223372036854775808 < v
          · rw [if_pos h]; simp only [okValue]; rw [if_neg (by simp), if_neg (by omega)]
          · rw [if_neg h]; simp
            rw [toInt64_neg_toInt64 _ (by omega)]; simp; omega
      · simp only [if_neg hvm]
        clear h1 h2
        cases arch <;> cases neg <;> simp [okValue, IntSize] at hvm ⊢
        all_goals rw [if_neg (by omega)]

/-- `strconv.ParseInt(s, 10, 0)` succeeds exactly on the strings that read
as a base-10 integer fitting in `int`, and then returns that integer. -/
theorem ParseInt10_refines (arch : Arch) (s : String) :
    okValue (ParseInt10 arch s 0) = base10Int (IntSize arch) s := by
  unfold ParseInt10 base10Int
  generalize s.toList = l
  cases l with
  | nil => simp [okValue]
  | cons c cs =>
    by_cases hp : c = '+'
    · subst hp
      have h := parseInt_core arch false cs
      simpa using h
    · by_cases hm : c = '-'
      · subst hm
        have h := parseInt_core arch true cs
        simpa using h
      · have h := parseInt_core arch false (c :: cs)
        simpa [hp, hm] using h

theorem base10Int_range (bits : Nat) (s : String) (n : Int) (h : base10Int bits s = some n) :
    -(2 : Int) ^ (bits - 1) ≤ n ∧ n < (2 : Int) ^ (bits - 1) := by
  unfold base10Int at h
  split at h
  · cases h
  · dsimp only at h
    split_ifs at h <;>
    · split at h
      · cases h
      · split_ifs at h with hr
        cases h
        exact hr

theorem toInt_of_range (arch : Arch) (n : Int)
    (h : -(2 : Int) ^ (IntSize arch - 1) ≤ n ∧ n < (2 : Int) ^ (IntSize arch - 1)) :
    toInt arch n = n := by
  unfold toInt
  cases arch <;> simp [IntSize] at h ⊢ <;> omega

end strconv

namespace Run

@[simp] theorem andThen_cmdFailOnError {β : Type} (w : World) (e : Option GoError) (m : String)
    (f : Unit → Run β) :
    andThen (cmdFailOnError w e m) f =
      if w.failOnError e m = true then ⟨[.call (.cmdFailOnError e m)], none⟩
      else ⟨.call (.cmdFailOnError e m) :: (f ()).trace, (f ()).value⟩ := by
  unfold cmdFailOnError andThen
  by_cases h : w.failOnError e m = true <;> simp [h]

@[simp] theorem andThen_ite {α β : Type} (c : Prop) [Decidable c] (a b : Run α) (f : α → Run β) :
    andThen (if c then a else b) f = if c then andThen a f else andThen b f := by
  split <;> rfl

@[simp] theorem andThen_osExit {β : Type} (n : Int) (f : Unit → Run β) :
    andThen (osExit n) f = ⟨[.call (.osExit n)], none⟩ := rfl

@[simp] theorem andThen_osGetenv {β : Type} (w : World) (k : String) (f : String → Run β) :
    andThen (osGetenv w k) f =
      ⟨.call (.osGetenv k) :: (f (w.getenv k)).trace, (f (w.getenv k)).value⟩ := rfl

@[simp] theorem andThen_logPrintf {β : Type} (fmt : String) (args : List Arg)
    (f : Unit → Run β) :
    andThen (logPrintf fmt args) f =
      ⟨.call (.logPrintf fmt args) :: (f ()).trace, (f ()).value⟩ := rfl

@[simp] theorem andThen_cmdReadConfigFile {β : Type} (w : World) (k : String)
    (f : config × Option GoError → Run β) :
    andThen (cmdReadConfigFile w k) f =
      ⟨.call (.cmdReadConfigFile k (w.readConfigFile k).2) :: (f (w.readConfigFile k)).trace,
        (f (w.readConfigFile k)).value⟩ := rfl

end Run

theorem Run.andThen_trace {α β : Type} (r : Run α) (f : α → Run β) :
    (Run.andThen r f).trace =
      r.trace ++ match r.value with
        | none => []
        | some a => (f a).trace := by
  unfold Run.andThen
  cases r.value <;> simp

theorem announceAlternateRoots_value (w : World) (addr : String) (n : Int) :
    ∀ (fuel : Nat) (i : Int), (announceAlternateRoots w addr n fuel i).value = some () := by
  intro fuel
  induction fuel with
  | zero => intro i; rfl
  | succ k ih =>
    intro i
    unfold announceAlternateRoots
    split
    · simp [ih]
    · rfl

/-- The events of a run of `main`, phase by phase. -/
theorem startListeners_trace (w : World) :
    (startListeners w (w.readConfigFile (configFileOf w)).1 (alternateRootsOf w)).trace =
      serveTail w := by
  have hl : (do
      logPrintf "Listening on: %s\n" [.str (configOf w).ListenAddress]
      logPrintf "ACME directory available at: https://%s%s"
        [.str (configOf w).ListenAddress, .str w.DirectoryPath]
      emit (.httpListenAndServeTLS (configOf w).ListenAddress (configOf w).Certificate
        (configOf w).PrivateKey .muxHandler)
      match w.listenAndServeTLS (configOf w).ListenAddress with
      | none => (⟨[], none⟩ : Run Unit)
      | some e => cmdFailOnError w (some e) "Calling ListenAndServeTLS()" : Run Unit).trace
      = listenEvents w := by
    unfold listenEvents
    cases w.listenAndServeTLS (configOf w).ListenAddress <;> simp [cmdFailOnError]
  unfold startListeners serveTail adminExits managementEvents
  by_cases hm : (configOf w).ManagementListenAddress = ""
  · have hm' : (w.readConfigFile (configFileOf w)).1.Pebble.ManagementListenAddress = "" := hm
    simp only [hm, hm', ne_eq, not_true_eq_false, false_and, if_false]
    simpa using hl
  · have hm' : ¬ (w.readConfigFile (configFileOf w)).1.Pebble.ManagementListenAddress = "" := hm
    simp only [hm, hm', ne_eq, not_false_eq_true, true_and, if_true, if_false]
    unfold goThen
    have hg : adminGoroutine w (w.readConfigFile (configFileOf w)).1 =
        adminGoroutine w ⟨configOf w⟩ := rfl
    rw [hg]
    have hr : (do
        logPrintf "Management interface listening on: %s\n"
          [.str (w.readConfigFile (configFileOf w)).1.Pebble.ManagementListenAddress]
        logPrintf "Root CA certificate available at: https://%s%s0"
          [.str (w.readConfigFile (configFileOf w)).1.Pebble.ManagementListenAddress,
            .str w.RootCertPath]
        announceAlternateRoots w
          (w.readConfigFile (configFileOf w)).1.Pebble.ManagementListenAddress
          (alternateRootsOf w) ((alternateRootsOf w).toNat + 1) 0
        (do
          logPrintf "Listening on: %s\n"
            [.str (w.readConfigFile (configFileOf w)).1.Pebble.ListenAddress]
          logPrintf "ACME directory available at: https://%s%s"
            [.str (w.readConfigFile (configFileOf w)).1.Pebble.ListenAddress,
              .str w.DirectoryPath]
          emit (.httpListenAndServeTLS
            (w.readConfigFile (configFileOf w)).1.Pebble.ListenAddress
            (w.readConfigFile (configFileOf w)).1.Pebble.Certificate
            (w.readConfigFile (configFileOf w)).1.Pebble.PrivateKey .muxHandler)
          match w.listenAndServeTLS
            (w.readConfigFile (configFileOf w)).1.Pebble.ListenAddress with
          | none => (⟨[], none⟩ : Run Unit)
          | some e => cmdFailOnError w (some e) "Calling ListenAndServeTLS()" : Run Unit)
          : Run Unit).trace =
        .call (.logPrintf "Management interface listening on: %s\n"
          [.str (configOf w).ManagementListenAddress]) ::
        .call (.logPrintf "Root CA certificate available at: https://%s%s0"
          [.str (configOf w).ManagementListenAddress, .str w.RootCertPath]) ::
        ((announceAlternateRoots w (configOf w).ManagementListenAddress (alternateRootsOf w)
          ((alternateRootsOf w).toNat + 1) 0).trace ++ listenEvents w) := by
      rw [← hl]
      simp [Run.andThen_trace, announceAlternateRoots_value, configOf]
    by_cases hx : (adminGoroutine w ⟨configOf w⟩).exits = true
    · rw [if_pos hx, if_pos hx]
      show Event.go _ :: List.take _ _ = _
      rw [hr]
      simp [List.take_succ_cons]
    · rw [if_neg hx, if_neg hx]
      show Event.go _ :: _ = _
      rw [hr]
      simp

/-- The events of a run of `main`, phase by phase. -/
theorem main_trace (w : World) :
    (main w).trace =
      if configFileOf w = "" then [.call .flagUsage, .call (.osExit 1)]
      else startEvents w ++ readFailEvent w ::
        if w.failOnError (readErrOf w) "Reading JSON config file into config structure" = true
        then []
        else envEvents w ++ caEvents w ++ vaEvent w :: policyAndServeEvents w := by
  have hst := startListeners_trace w
  by_cases h1 : configFileOf w = ""
  · have h1' : w.flagConfig.getD "test/config/pebble-config.json" = "" := h1
    simp [main, h1, h1']
  · have h1' : ¬ w.flagConfig.getD "test/config/pebble-config.json" = "" := h1
    by_cases h2 : w.failOnError (readErrOf w)
        "Reading JSON config file into config structure" = true
    · have h2' : w.failOnError (w.readConfigFile
          (w.flagConfig.getD "test/config/pebble-config.json")).2
          "Reading JSON config file into config structure" = true := h2
      simp [main, h1, h1', h2, h2', startEvents, readFailEvent, readErrOf, configFileOf]
    · have h2' : ¬ w.failOnError (w.readConfigFile
          (w.flagConfig.getD "test/config/pebble-config.json")).2
          "Reading JSON config file into config structure" = true := h2
      by_cases h3 : useXCAOf w
      · have h3' := h3
        unfold useXCAOf at h3'
        simp [main, h1, h1', h2, h2', h3, h3', startEvents, readFailEvent, readErrOf,
          configFileOf, envEvents, caEvents, vaEvent, configOf, policyAndServeEvents,
          serveEvents, loadExistCaCall, newCall,
          Run.andThen_trace, pathXCAOf, isDes3Of, alternateRootsOf, chainLengthOf]
        refine ⟨⟨by split_ifs <;> rfl, by split_ifs <;> rfl⟩, ?_⟩
        cases (addExternalAccountKeys w (w.readConfigFile
          (w.flagConfig.getD "test/config/pebble-config.json")).1.Pebble.ExternalAccountMACKeys).value
        · rfl
        · simp only
          cases (addBlockedDomains w (w.readConfigFile
            (w.flagConfig.getD "test/config/pebble-config.json")).1.Pebble.DomainBlocklist).value
          · rfl
          · simp only [List.append_cancel_left_eq, List.cons.injEq, true_and]
            exact hst
      · have h3' := h3
        unfold useXCAOf at h3'
        simp [main, h1, h1', h2, h2', h3, h3', startEvents, readFailEvent, readErrOf,
          configFileOf, envEvents, caEvents, vaEvent, configOf, policyAndServeEvents,
          serveEvents, loadExistCaCall, newCall,
          Run.andThen_trace, pathXCAOf, isDes3Of, alternateRootsOf, chainLengthOf]
        refine ⟨fun h => by simpa [h] using h3', ?_⟩
        cases (addExternalAccountKeys w (w.readConfigFile
          (w.flagConfig.getD "test/config/pebble-config.json")).1.Pebble.ExternalAccountMACKeys).value
        · rfl
        · simp only
          cases (addBlockedDomains w (w.readConfigFile
            (w.flagConfig.getD "test/config/pebble-config.json")).1.Pebble.DomainBlocklist).value
          · rfl
          · simp only [List.append_cancel_left_eq, List.cons.injEq, true_and]
            exact hst

/-! ## The two policy loops -/

theorem addExternalAccountKeys_cons (w : World) (keyID key : String)
    (rest : List (String × String)) :
    addExternalAccountKeys w ((keyID, key) :: rest) =
      if w.failOnError (w.addExternalAccountKeyByID keyID key)
          "Failed to add key to external account bindings" = true then
        ⟨[.call (.dbAddExternalAccountKeyByID keyID key (w.addExternalAccountKeyByID keyID key)),
          .call (.cmdFailOnError (w.addExternalAccountKeyByID keyID key)
            "Failed to add key to external account bindings")], none⟩
      else
        ⟨.call (.dbAddExternalAccountKeyByID keyID key (w.addExternalAccountKeyByID keyID key)) ::
          .call (.cmdFailOnError (w.addExternalAccountKeyByID keyID key)
            "Failed to add key to external account bindings") ::
          (addExternalAccountKeys w rest).trace, (addExternalAccountKeys w rest).value⟩ := by
  simp only [addExternalAccountKeys, Run.bind_eq, Run.andThen_emit, Run.andThen_cmdFailOnError]
  split <;> rfl

theorem addBlockedDomains_cons (w : World) (name : String) (rest : List String) :
    addBlockedDomains w (name :: rest) =
      if w.failOnError (w.addBlockedDomain name) "Failed to add domain to block list" = true then
        ⟨[.call (.dbAddBlockedDomain name (w.addBlockedDomain name)),
          .call (.cmdFailOnError (w.addBlockedDomain name)
            "Failed to add domain to block list")], none⟩
      else
        ⟨.call (.dbAddBlockedDomain name (w.addBlockedDomain name)) ::
          .call (.cmdFailOnError (w.addBlockedDomain name)
            "Failed to add domain to block list") ::
          (addBlockedDomains w rest).trace, (addBlockedDomains w rest).value⟩ := by
  simp only [addBlockedDomains, Run.bind_eq, Run.andThen_emit, Run.andThen_cmdFailOnError]
  split <;> rfl

theorem addExternalAccountKeys_nil (w : World) :
    addExternalAccountKeys w [] = ⟨[], some ()⟩ := rfl

theorem addBlockedDomains_nil (w : World) :
    addBlockedDomains w [] = ⟨[], some ()⟩ := rfl

/-- Every event of the first loop is a call of `db.AddExternalAccountKeyByID`
or of `cmd.FailOnError`. -/
theorem addExternalAccountKeys_mem (w : World) :
    ∀ (l : List (String × String)) (e : Event), e ∈ (addExternalAccountKeys w l).trace →
      (∃ k v err, e = .call (.dbAddExternalAccountKeyByID k v err)) ∨
      (∃ err m, e = .call (.cmdFailOnError err m)) := by
  intro l
  induction l with
  | nil => intro e he; simp [addExternalAccountKeys_nil] at he
  | cons kv rest ih =>
    obtain ⟨k, v⟩ := kv
    intro e he
    rw [addExternalAccountKeys_cons] at he
    split at he
    · simp at he
      rcases he with h | h
      · exact Or.inl ⟨_, _, _, h⟩
      · exact Or.inr ⟨_, _, h⟩
    · simp at he
      rcases he with h | h | h
      · exact Or.inl ⟨_, _, _, h⟩
      · exact Or.inr ⟨_, _, h⟩
      · exact ih e h

/-- Every event of the second loop is a call of `db.AddBlockedDomain` or of
`cmd.FailOnError`. -/
theorem addBlockedDomains_mem (w : World) :
    ∀ (l : List String) (e : Event), e ∈ (addBlockedDomains w l).trace →
      (∃ d err, e = .call (.dbAddBlockedDomain d err)) ∨
      (∃ err m, e = .call (.cmdFailOnError err m)) := by
  intro l
  induction l with
  | nil => intro e he; simp [addBlockedDomains_nil] at he
  | cons d rest ih =>
    intro e he
    rw [addBlockedDomains_cons] at he
    split at he
    · simp at he
      rcases he with h | h
      · exact Or.inl ⟨_, _, h⟩
      · exact Or.inr ⟨_, _, h⟩
    · simp at he
      rcases he with h | h | h
      · exact Or.inl ⟨_, _, h⟩
      · exact Or.inr ⟨_, _, h⟩
      · exact ih e h

theorem allCalls_append (a b : List Event) : allCalls (a ++ b) = allCalls a ++ allCalls b := by
  induction a with
  | nil => rfl
  | cons e t ih => simp [allCalls, ih]

theorem goBodies_append (a b : List Event) : goBodies (a ++ b) = goBodies a ++ goBodies b := by
  induction a with
  | nil => rfl
  | cons e t ih => cases e <;> simp [goBodies, ih]

/-- A loop that runs to its end has added every entry, in order. -/
theorem addExternalAccountKeys_added (w : World) :
    ∀ (l : List (String × String)), (addExternalAccountKeys w l).value = some () →
      (allCalls (addExternalAccountKeys w l).trace).filterMap Call.externalAccountKey = l := by
  intro l
  induction l with
  | nil => intro _; rfl
  | cons kv rest ih =>
    obtain ⟨k, v⟩ := kv
    intro hv
    rw [addExternalAccountKeys_cons] at hv ⊢
    split at hv
    · cases hv
    · rename_i hf
      rw [if_neg hf]
      simp [allCalls, Event.calls, Call.externalAccountKey]
      exact ih hv

/-- A loop that runs to its end has added every entry, in order. -/
theorem addBlockedDomains_added (w : World) :
    ∀ (l : List String), (addBlockedDomains w l).value = some () →
      (allCalls (addBlockedDomains w l).trace).filterMap Call.blockedDomain = l := by
  intro l
  induction l with
  | nil => intro _; rfl
  | cons d rest ih =>
    intro hv
    rw [addBlockedDomains_cons] at hv ⊢
    split at hv
    · cases hv
    · rename_i hf
      rw [if_neg hf]
      simp [allCalls, Event.calls, Call.blockedDomain]
      exact ih hv

/-! ## Where an event of a run comes from -/

theorem announceAlternateRoots_mem (w : World) (addr : String) (n : Int) :
    ∀ (fuel : Nat) (i : Int) (e : Event), e ∈ (announceAlternateRoots w addr n fuel i).trace →
      ∃ k, e = .call (.logPrintf
        "Alternate (%d) root CA certificate available at: https://%s%s%d"
        [.int k, .str addr, .str w.RootCertPath, .int k]) := by
  intro fuel
  induction fuel with
  | zero => intro i e he; simp [announceAlternateRoots, Run.ret] at he
  | succ k ih =>
    intro i e he
    unfold announceAlternateRoots at he
    split at he
    · simp at he
      rcases he with h | h
      · exact ⟨_, h⟩
      · exact ih _ _ h
    · simp [Run.ret] at he

theorem main_mem (w : World) (e : Event) (he : e ∈ (main w).trace) :
    e = .call .flagUsage ∨ e = .call (.osExit 1) ∨ e ∈ startEvents w ∨ e = readFailEvent w ∨
    e ∈ envEvents w ∨ e ∈ caEvents w ∨ e = vaEvent w ∨
    e ∈ (addExternalAccountKeys w (configOf w).ExternalAccountMACKeys).trace ∨
    e ∈ (addBlockedDomains w (configOf w).DomainBlocklist).trace ∨
    e ∈ serveEvents w := by
  rw [main_trace] at he
  split at he
  · simp at he
    rcases he with h | h <;> simp [h]
  · simp only [List.mem_append, List.mem_cons] at he
    rcases he with h | h | h
    · simp [h]
    · simp [h]
    · split at h
      · simp at h
      · simp only [List.mem_append, List.mem_cons, policyAndServeEvents] at h
        rcases h with (h | h) | h | h | h
        · simp [h]
        · simp [h]
        · simp [h]
        · simp [h]
        · split at h
          · simp at h
          · simp only [List.mem_append] at h
            rcases h with h | h
            · simp [h]
            · split at h
              · simp at h
              · simp [h]

theorem strconv.intSetting_eq (arch : strconv.Arch) (s : String) (d : Int) :
    (if (strconv.ParseInt10 arch s 0).2 = none ∧ (strconv.ParseInt10 arch s 0).1 ≥ 0 then
        strconv.toInt arch (strconv.ParseInt10 arch s 0).1 else d) =
      match strconv.base10Int (strconv.IntSize arch) s with
      | some n => if 0 ≤ n then n else d
      | none => d := by
  have h := strconv.ParseInt10_refines arch s
  unfold strconv.okValue at h
  by_cases he : (strconv.ParseInt10 arch s 0).2 = none
  · rw [if_pos he] at h
    rw [← h]
    have hr := strconv.base10Int_range _ _ _ h.symm
    simp only [he, true_and, ge_iff_le]
    split
    · exact strconv.toInt_of_range _ _ hr
    · rfl
  · rw [if_neg he] at h
    rw [← h]
    simp [he]

theorem mem_allCalls (t : List Event) (c : Call) :
    c ∈ allCalls t ↔ ∃ e ∈ t, c ∈ e.calls := by
  induction t with
  | nil => simp [allCalls]
  | cons e t ih => simp [allCalls, ih]

theorem policy_loop_class (w : World) (e : Event)
    (h : e ∈ (addExternalAccountKeys w (configOf w).ExternalAccountMACKeys).trace ∨
      e ∈ (addBlockedDomains w (configOf w).DomainBlocklist).trace) :
    ∀ c ∈ e.calls, c.isPolicyCall = true := by
  intro c hc
  rcases h with h | h
  · rcases addExternalAccountKeys_mem w _ _ h with ⟨_, _, _, h⟩ | ⟨_, _, h⟩ <;>
      (subst h; simp [Event.calls] at hc; subst hc; rfl)
  · rcases addBlockedDomains_mem w _ _ h with ⟨_, _, h⟩ | ⟨_, _, h⟩ <;>
      (subst h; simp [Event.calls] at hc; subst hc; rfl)

theorem adminGoroutine_calls_class (w : World) (c : config) :
    ∀ d ∈ (adminGoroutine w c).calls, d.isServeCall = true ∧ d.isWfeNew = false := by
  intro d hd
  unfold adminGoroutine at hd
  cases hl : w.listenAndServeTLS c.Pebble.ManagementListenAddress with
  | none =>
    rw [hl] at hd
    simp only [List.mem_cons, List.mem_singleton, List.not_mem_nil, or_false] at hd
    rcases hd with hd | hd <;> (subst hd; exact ⟨rfl, rfl⟩)
  | some e =>
    rw [hl] at hd
    simp only [List.mem_cons, List.mem_singleton, List.not_mem_nil, or_false] at hd
    rcases hd with hd | hd | hd <;> (subst hd; exact ⟨rfl, rfl⟩)

/-- Every call of lines 120-149 is a serve call other than `wfe.New`. -/
theorem uncut_class (w : World) (e : Event) (h : e ∈ managementEvents w ++ listenEvents w) :
    ∀ c ∈ e.calls, c.isServeCall = true ∧ c.isWfeNew = false := by
  intro c hc
  simp only [managementEvents, listenEvents, List.mem_cons, List.mem_append] at h
  rcases h with h | h
  · split at h
    · simp at h; subst h; simp [Event.calls] at hc; subst hc; exact ⟨rfl, rfl⟩
    · simp only [List.mem_cons] at h
      rcases h with h | h | h | h
      · subst h
        exact adminGoroutine_calls_class w _ c hc
      · subst h; simp [Event.calls] at hc; subst hc; exact ⟨rfl, rfl⟩
      · subst h; simp [Event.calls] at hc; subst hc; exact ⟨rfl, rfl⟩
      · obtain ⟨_, h⟩ := announceAlternateRoots_mem _ _ _ _ _ _ h
        subst h; simp [Event.calls] at hc; subst hc; exact ⟨rfl, rfl⟩
  · rcases h with h | h
    · simp at h
      rcases h with h | h | h <;>
        (subst h; simp [Event.calls] at hc; subst hc; exact ⟨rfl, rfl⟩)
    · split at h <;> simp at h
      subst h; simp [Event.calls] at hc; subst hc; exact ⟨rfl, rfl⟩

/-- What happens after line 118 is an initial part of lines 120-149. -/
theorem serveTail_subset (w : World) (e : Event) (h : e ∈ serveTail w) :
    e ∈ managementEvents w ++ listenEvents w := by
  unfold serveTail at h
  split at h
  · exact List.mem_of_mem_take h
  · exact h

theorem serveEvents_class (w : World) (e : Event) (h : e ∈ serveEvents w) :
    ∀ c ∈ e.calls, c.isServeCall = true := by
  intro c hc
  simp only [serveEvents, List.mem_cons] at h
  rcases h with h | h | h
  · subst h; simp [Event.calls] at hc; subst hc; rfl
  · subst h; simp [Event.calls] at hc; subst hc; rfl
  · exact (uncut_class w e (serveTail_subset w e h) c hc).1

theorem policyAndServe_class (w : World) (c : Call)
    (h : c ∈ allCalls (policyAndServeEvents w)) :
    c.isPolicyCall = true ∨ c.isServeCall = true := by
  rw [mem_allCalls] at h
  obtain ⟨e, he, hc⟩ := h
  simp only [policyAndServeEvents, List.mem_append] at he
  rcases he with he | he
  · exact Or.inl (policy_loop_class w e (Or.inl he) c hc)
  · split at he
    · simp at he
    · simp only [List.mem_append] at he
      rcases he with he | he
      · exact Or.inl (policy_loop_class w e (Or.inr he) c hc)
      · split at he
        · simp at he
        · exact Or.inr (serveEvents_class w e he c hc)

/-- A constructor call of the Issuance Engine in a run is the one of lines
82-104. -/
theorem constructor_mem (w : World) (c : Call) (hc : c.isCAConstructor = true)
    (h : Event.call c ∈ (main w).trace) :
    c = if useXCAOf w then loadExistCaCall w else newCall w := by
  rcases main_mem w _ h with h | h | h | h | h | h | h | h | h | h
  · cases h; simp [Call.isCAConstructor, Call.isLoadExistCa, Call.isPcaNew] at hc
  · cases h; simp [Call.isCAConstructor, Call.isLoadExistCa, Call.isPcaNew] at hc
  · simp only [startEvents, List.mem_cons, Event.call.injEq] at h
    rcases h with h | h | h | h
    · subst h; simp [Call.isCAConstructor, Call.isLoadExistCa, Call.isPcaNew] at hc
    · subst h; simp [Call.isCAConstructor, Call.isLoadExistCa, Call.isPcaNew] at hc
    · subst h; simp [Call.isCAConstructor, Call.isLoadExistCa, Call.isPcaNew] at hc
    · simp at h
  · simp only [readFailEvent, Event.call.injEq] at h
    subst h; simp [Call.isCAConstructor, Call.isLoadExistCa, Call.isPcaNew] at hc
  · simp only [envEvents, List.mem_cons, Event.call.injEq] at h
    rcases h with h | h | h | h | h | h
    · subst h; simp [Call.isCAConstructor, Call.isLoadExistCa, Call.isPcaNew] at hc
    · subst h; simp [Call.isCAConstructor, Call.isLoadExistCa, Call.isPcaNew] at hc
    · subst h; simp [Call.isCAConstructor, Call.isLoadExistCa, Call.isPcaNew] at hc
    · subst h; simp [Call.isCAConstructor, Call.isLoadExistCa, Call.isPcaNew] at hc
    · subst h; simp [Call.isCAConstructor, Call.isLoadExistCa, Call.isPcaNew] at hc
    · simp at h
  · unfold caEvents at h
    split at h
    · rename_i hx
      rw [if_pos hx]
      simp only [List.mem_cons, Event.call.injEq] at h
      rcases h with h | h | h | h | h | h | h
      · subst h; simp [Call.isCAConstructor, Call.isLoadExistCa, Call.isPcaNew] at hc
      · subst h; simp [Call.isCAConstructor, Call.isLoadExistCa, Call.isPcaNew] at hc
      · subst h; simp [Call.isCAConstructor, Call.isLoadExistCa, Call.isPcaNew] at hc
      · subst h; simp [Call.isCAConstructor, Call.isLoadExistCa, Call.isPcaNew] at hc
      · subst h; simp [Call.isCAConstructor, Call.isLoadExistCa, Call.isPcaNew] at hc
      · exact h
      · simp at h
    · rename_i hx
      rw [if_neg hx]
      simpa using h
  · simp only [vaEvent, Event.call.injEq] at h
    subst h; simp [Call.isCAConstructor, Call.isLoadExistCa, Call.isPcaNew] at hc
  · have := policy_loop_class w _ (Or.inl h) c (by simp [Event.calls])
    cases c <;> simp_all [Call.isCAConstructor, Call.isLoadExistCa, Call.isPcaNew,
      Call.isPolicyCall]
  · have := policy_loop_class w _ (Or.inr h) c (by simp [Event.calls])
    cases c <;> simp_all [Call.isCAConstructor, Call.isLoadExistCa, Call.isPcaNew,
      Call.isPolicyCall]
  · have := serveEvents_class w _ h c (by simp [Event.calls])
    cases c <;> simp_all [Call.isCAConstructor, Call.isLoadExistCa, Call.isPcaNew,
      Call.isServeCall]

/-- Any call of `pca.New` in a run is the one of line 103. -/
theorem pcaNew_mem (w : World) (o : String) (a c : Int) (v : Nat)
    (h : Event.call (.pcaNew o a c v) ∈ (main w).trace) :
    Call.pcaNew o a c v = newCall w := by
  have := constructor_mem w (.pcaNew o a c v) rfl h
  split at this
  · simp [loadExistCaCall] at this
  · exact this

/-- Any call of `pca.LoadExistCa` in a run is the one of line 101. -/
theorem loadExistCa_mem (w : World) (v : Nat) (rk rc rp tk tc tp : String)
    (h : Event.call (.pcaLoadExistCa v rk rc rp tk tc tp) ∈ (main w).trace) :
    Call.pcaLoadExistCa v rk rc rp tk tc tp = loadExistCaCall w := by
  have := constructor_mem w (.pcaLoadExistCa v rk rc rp tk tc tp) rfl h
  split at this
  · exact this
  · simp [newCall] at this

/-- C2: the chain length handed to `pca.New` is the value of
`PEBBLE_CHAIN_LENGTH` when that reads as a base-10 integer that fits in `int`
and is not negative, and 1 in every other case; it is never negative, and 0 is
kept rather than replaced by the default. -/
theorem chainLength_default (w : World) (o : String) (a c : Int) (v : Nat)
    (h : Event.call (.pcaNew o a c v) ∈ (main w).trace) :
    c = (match strconv.base10Int (strconv.IntSize w.arch) (w.getenv "PEBBLE_CHAIN_LENGTH") with
        | some n => if 0 ≤ n then n else 1
        | none => 1) ∧
    0 ≤ c ∧
    (strconv.base10Int (strconv.IntSize w.arch) (w.getenv "PEBBLE_CHAIN_LENGTH") = some 0 →
      c = 0) := by
  have hc : c = chainLengthOf w := by
    have := pcaNew_mem w o a c v h
    simp only [newCall, Call.pcaNew.injEq] at this
    exact this.2.2.1
  have hs := strconv.intSetting_eq w.arch (w.getenv "PEBBLE_CHAIN_LENGTH") 1
  have hc2 : c = (match strconv.base10Int (strconv.IntSize w.arch)
      (w.getenv "PEBBLE_CHAIN_LENGTH") with
        | some n => if 0 ≤ n then n else 1
        | none => 1) := by
    rw [hc, ← hs]
    rfl
  refine ⟨hc2, ?_, ?_⟩
  · rw [hc2]
    split
    · split <;> omega
    · omega
  · intro h0
    rw [hc2, h0]
    rfl

theorem chainLength_default_witness :
    Event.call (.pcaNew "" 2 3 0) ∈ (main genWorld).trace ∧
    ((3 : Int) = (match strconv.base10Int (strconv.IntSize genWorld.arch)
        (genWorld.getenv "PEBBLE_CHAIN_LENGTH") with
        | some n => if 0 ≤ n then n else 1
        | none => 1) ∧
    0 ≤ (3 : Int) ∧
    (strconv.base10Int (strconv.IntSize genWorld.arch)
      (genWorld.getenv "PEBBLE_CHAIN_LENGTH") = some 0 → (3 : Int) = 0)) :=
  ⟨by decide, chainLength_default genWorld "" 2 3 0 (by decide)⟩

theorem strconv.ParseBool_true_iff (str : String) :
    strconv.ParseBool str = (true, none) ↔ str ∈ ["1", "t", "T", "TRUE", "true", "True"] := by
  unfold strconv.ParseBool
  split_ifs with h1 h2
  · simp only [List.mem_cons, List.mem_singleton, List.not_mem_nil, or_false]
    constructor
    · intro _; tauto
    · intro _; trivial
  · simp only [List.mem_cons, List.mem_singleton, List.not_mem_nil, or_false]
    constructor
    · intro h; simp at h
    · intro h; exact absurd (by tauto) h1
  · simp only [List.mem_cons, List.mem_singleton, List.not_mem_nil, or_false]
    constructor
    · intro h; simp at h
    · intro h; exact absurd (by tauto) h1

theorem useXCAOf_iff (w : World) :
    useXCAOf w ↔ strconv.ParseBool (w.getenv "USE_X_CA") = (true, none) := by
  unfold useXCAOf
  constructor
  · intro h; exact Prod.ext h.2 h.1
  · intro h; rw [h]; exact ⟨rfl, rfl⟩

theorem isDes3Of_iff (w : World) :
    isDes3Of w ↔ strconv.ParseBool (w.getenv "IS_DES3_KEY") = (true, none) := by
  unfold isDes3Of
  constructor
  · intro h; exact Prod.ext h.2 h.1
  · intro h; rw [h]; exact ⟨rfl, rfl⟩

/-- C3: the alternate-root count handed to `pca.New` is the value of
`PEBBLE_ALTERNATE_ROOTS` when that reads as a base-10 integer that fits in
`int` and is not negative, and 0 in every other case; it is never negative. -/
theorem alternateRoots_default (w : World) (o : String) (a c : Int) (v : Nat)
    (h : Event.call (.pcaNew o a c v) ∈ (main w).trace) :
    a = (match strconv.base10Int (strconv.IntSize w.arch)
          (w.getenv "PEBBLE_ALTERNATE_ROOTS") with
        | some n => if 0 ≤ n then n else 0
        | none => 0) ∧
    0 ≤ a := by
  have ha : a = alternateRootsOf w := by
    have := pcaNew_mem w o a c v h
    simp only [newCall, Call.pcaNew.injEq] at this
    exact this.2.1
  have hs := strconv.intSetting_eq w.arch (w.getenv "PEBBLE_ALTERNATE_ROOTS") 0
  have ha2 : a = (match strconv.base10Int (strconv.IntSize w.arch)
      (w.getenv "PEBBLE_ALTERNATE_ROOTS") with
        | some n => if 0 ≤ n then n else 0
        | none => 0) := by
    rw [ha, ← hs]
    rfl
  refine ⟨ha2, ?_⟩
  rw [ha2]
  split
  · split <;> omega
  · omega

theorem alternateRoots_default_witness :
    Event.call (.pcaNew "" 2 3 0) ∈ (main genWorld).trace ∧
    ((2 : Int) = (match strconv.base10Int (strconv.IntSize genWorld.arch)
        (genWorld.getenv "PEBBLE_ALTERNATE_ROOTS") with
        | some n => if 0 ≤ n then n else 0
        | none => 0) ∧
    0 ≤ (2 : Int)) :=
  ⟨by decide, alternateRoots_default genWorld "" 2 3 0 (by decide)⟩

/-- C5: the files handed to `pca.LoadExistCa` all lie under one base
directory, `PATH_X_CA` when that is not empty and `/x-ca` otherwise; the two
key files are the `-des3` ones when `IS_DES3_KEY` parses to true and the plain
ones otherwise, both of the same variant. -/
theorem loadExistCa_paths (w : World) (v : Nat) (rk rc rp tk tc tp : String)
    (h : Event.call (.pcaLoadExistCa v rk rc rp tk tc tp) ∈ (main w).trace) :
    rc = w.pathJoin (if w.getenv "PATH_X_CA" ≠ "" then w.getenv "PATH_X_CA" else "/x-ca")
      "ca/root-ca.crt" ∧
    tc = w.pathJoin (if w.getenv "PATH_X_CA" ≠ "" then w.getenv "PATH_X_CA" else "/x-ca")
      "ca/tls-ca.crt" ∧
    (strconv.ParseBool (w.getenv "IS_DES3_KEY") = (true, none) →
      rk = w.pathJoin (if w.getenv "PATH_X_CA" ≠ "" then w.getenv "PATH_X_CA" else "/x-ca")
        "ca/root-ca/private/root-ca-des3.key" ∧
      tk = w.pathJoin (if w.getenv "PATH_X_CA" ≠ "" then w.getenv "PATH_X_CA" else "/x-ca")
        "ca/tls-ca/private/tls-ca-des3.key") ∧
    (strconv.ParseBool (w.getenv "IS_DES3_KEY") ≠ (true, none) →
      rk = w.pathJoin (if w.getenv "PATH_X_CA" ≠ "" then w.getenv "PATH_X_CA" else "/x-ca")
        "ca/root-ca/private/root-ca.key" ∧
      tk = w.pathJoin (if w.getenv "PATH_X_CA" ≠ "" then w.getenv "PATH_X_CA" else "/x-ca")
        "ca/tls-ca/private/tls-ca.key") := by
  have hb : (if w.getenv "PATH_X_CA" ≠ "" then w.getenv "PATH_X_CA" else "/x-ca")
      = pathXCAOf w := by
    unfold pathXCAOf
    by_cases hp : w.getenv "PATH_X_CA" = "" <;> simp [hp]
  rw [hb]
  have hm := loadExistCa_mem w v rk rc rp tk tc tp h
  simp only [loadExistCaCall, Call.pcaLoadExistCa.injEq] at hm
  obtain ⟨_, hrk, hrc, _, htk, htc, _⟩ := hm
  refine ⟨hrc, htc, ?_, ?_⟩
  · intro hd
    have hd' := (isDes3Of_iff w).2 hd
    rw [if_pos hd'] at hrk htk
    exact ⟨hrk, htk⟩
  · intro hd
    have hd' : ¬ isDes3Of w := fun hx => hd ((isDes3Of_iff w).1 hx)
    rw [if_neg hd'] at hrk htk
    exact ⟨hrk, htk⟩

theorem loadExistCa_paths_witness :
    Event.call (.pcaLoadExistCa 0 "/data/ca/ca/root-ca/private/root-ca-des3.key"
      "/data/ca/ca/root-ca.crt" "root-secret" "/data/ca/ca/tls-ca/private/tls-ca-des3.key"
      "/data/ca/ca/tls-ca.crt" "tls-secret") ∈ (main des3World).trace ∧
    ("/data/ca/ca/root-ca.crt" = des3World.pathJoin
      (if des3World.getenv "PATH_X_CA" ≠ "" then des3World.getenv "PATH_X_CA" else "/x-ca")
      "ca/root-ca.crt" ∧
    "/data/ca/ca/tls-ca.crt" = des3World.pathJoin
      (if des3World.getenv "PATH_X_CA" ≠ "" then des3World.getenv "PATH_X_CA" else "/x-ca")
      "ca/tls-ca.crt" ∧
    (strconv.ParseBool (des3World.getenv "IS_DES3_KEY") = (true, none) →
      "/data/ca/ca/root-ca/private/root-ca-des3.key" = des3World.pathJoin
        (if des3World.getenv "PATH_X_CA" ≠ "" then des3World.getenv "PATH_X_CA" else "/x-ca")
        "ca/root-ca/private/root-ca-des3.key" ∧
      "/data/ca/ca/tls-ca/private/tls-ca-des3.key" = des3World.pathJoin
        (if des3World.getenv "PATH_X_CA" ≠ "" then des3World.getenv "PATH_X_CA" else "/x-ca")
        "ca/tls-ca/private/tls-ca-des3.key") ∧
    (strconv.ParseBool (des3World.getenv "IS_DES3_KEY") ≠ (true, none) →
      "/data/ca/ca/root-ca/private/root-ca-des3.key" = des3World.pathJoin
        (if des3World.getenv "PATH_X_CA" ≠ "" then des3World.getenv "PATH_X_CA" else "/x-ca")
        "ca/root-ca/private/root-ca.key" ∧
      "/data/ca/ca/tls-ca/private/tls-ca-des3.key" = des3World.pathJoin
        (if des3World.getenv "PATH_X_CA" ≠ "" then des3World.getenv "PATH_X_CA" else "/x-ca")
        "ca/tls-ca/private/tls-ca.key")) :=
  ⟨by decide, loadExistCa_paths des3World 0 "/data/ca/ca/root-ca/private/root-ca-des3.key"
    "/data/ca/ca/root-ca.crt" "root-secret" "/data/ca/ca/tls-ca/private/tls-ca-des3.key"
    "/data/ca/ca/tls-ca.crt" "tls-secret" (by decide)⟩

/-- C6, as stated, fails in load-external mode: with `USE_X_CA=1` the one
constructor call is `pca.LoadExistCa`, and the OCSP responder URL is not among
its arguments. -/
theorem issuance_settings_counterexample : ¬ AllIssuanceSettingsPassed loadWorld := by
  intro h
  have h1 := h (.pcaLoadExistCa 7 "/x-ca/ca/root-ca/private/root-ca.key" "/x-ca/ca/root-ca.crt" ""
    "/x-ca/ca/tls-ca/private/tls-ca.key" "/x-ca/ca/tls-ca.crt" "") (by decide) rfl
  exact absurd h1.2.1 (by decide)

/-- C6, amended: the certificate validity period reaches the constructor in
both modes; in generate mode the call is `pca.New` with the OCSP responder
URL, the alternate-root count, the chain length and the validity period; in
load-external mode it is `pca.LoadExistCa` with the validity period, the key
and certificate files and the two passwords, and nothing else. -/
theorem issuance_settings_by_mode (w : World) (c : Call)
    (h : Event.call c ∈ (main w).trace) (hc : c.isCAConstructor = true) :
    Arg.int (configOf w).CertificateValidityPeriod ∈ c.constructorArgs ∧
    (strconv.ParseBool (w.getenv "USE_X_CA") ≠ (true, none) →
      c = .pcaNew (configOf w).OCSPResponderURL (alternateRootsOf w) (chainLengthOf w)
        (configOf w).CertificateValidityPeriod) ∧
    (strconv.ParseBool (w.getenv "USE_X_CA") = (true, none) →
      c = loadExistCaCall w ∧
      c.constructorArgs = [.int (configOf w).CertificateValidityPeriod,
        .str (if isDes3Of w then w.pathJoin (pathXCAOf w) "ca/root-ca/private/root-ca-des3.key"
          else w.pathJoin (pathXCAOf w) "ca/root-ca/private/root-ca.key"),
        .str (w.pathJoin (pathXCAOf w) "ca/root-ca.crt"),
        .str (w.getenv "X_CA_ROOT_CA_PASSWORD"),
        .str (if isDes3Of w then w.pathJoin (pathXCAOf w) "ca/tls-ca/private/tls-ca-des3.key"
          else w.pathJoin (pathXCAOf w) "ca/tls-ca/private/tls-ca.key"),
        .str (w.pathJoin (pathXCAOf w) "ca/tls-ca.crt"),
        .str (w.getenv "X_CA_TLS_CA_PASSWORD")]) := by
  have hm := constructor_mem w c hc h
  by_cases hx : useXCAOf w
  · rw [if_pos hx] at hm
    subst hm
    refine ⟨by simp [loadExistCaCall, Call.constructorArgs], ?_, ?_⟩
    · intro hn; exact absurd ((useXCAOf_iff w).1 hx) hn
    · intro _; exact ⟨rfl, rfl⟩
  · rw [if_neg hx] at hm
    subst hm
    refine ⟨by simp [newCall, Call.constructorArgs], ?_, ?_⟩
    · intro _; rfl
    · intro hn; exact absurd ((useXCAOf_iff w).2 hn) hx

theorem issuance_settings_by_mode_witness :
    Arg.int (configOf loadWorld).CertificateValidityPeriod ∈
      (loadExistCaCall loadWorld).constructorArgs ∧
    (strconv.ParseBool (loadWorld.getenv "USE_X_CA") ≠ (true, none) →
      loadExistCaCall loadWorld =
        .pcaNew (configOf loadWorld).OCSPResponderURL (alternateRootsOf loadWorld)
          (chainLengthOf loadWorld) (configOf loadWorld).CertificateValidityPeriod) ∧
    (strconv.ParseBool (loadWorld.getenv "USE_X_CA") = (true, none) →
      loadExistCaCall loadWorld = loadExistCaCall loadWorld ∧
      (loadExistCaCall loadWorld).constructorArgs =
        [.int (configOf loadWorld).CertificateValidityPeriod,
        .str (if isDes3Of loadWorld then
            loadWorld.pathJoin (pathXCAOf loadWorld) "ca/root-ca/private/root-ca-des3.key"
          else loadWorld.pathJoin (pathXCAOf loadWorld) "ca/root-ca/private/root-ca.key"),
        .str (loadWorld.pathJoin (pathXCAOf loadWorld) "ca/root-ca.crt"),
        .str (loadWorld.getenv "X_CA_ROOT_CA_PASSWORD"),
        .str (if isDes3Of loadWorld then
            loadWorld.pathJoin (pathXCAOf loadWorld) "ca/tls-ca/private/tls-ca-des3.key"
          else loadWorld.pathJoin (pathXCAOf loadWorld) "ca/tls-ca/private/tls-ca.key"),
        .str (loadWorld.pathJoin (pathXCAOf loadWorld) "ca/tls-ca.crt"),
        .str (loadWorld.getenv "X_CA_TLS_CA_PASSWORD")]) :=
  issuance_settings_by_mode loadWorld (loadExistCaCall loadWorld) (by decide) (by decide)

/-- C7 at a failing input: with `USE_X_CA=1` and `PEBBLE_ALTERNATE_ROOTS=2`
the run announces three root-certificate locations, while the one constructor
call, `pca.LoadExistCa`, was handed the files of a single chain. -/
theorem announced_roots_exceed_loaded_chains :
    (allCalls (main loadWorld).trace).filterMap Call.announcedRoot =
      ["/roots/0", "/roots/1", "/roots/2"] ∧
    (allCalls (main loadWorld).trace).filter Call.isCAConstructor =
      [.pcaLoadExistCa 7 "/x-ca/ca/root-ca/private/root-ca.key" "/x-ca/ca/root-ca.crt" ""
        "/x-ca/ca/tls-ca/private/tls-ca.key" "/x-ca/ca/tls-ca.crt" ""] ∧
    (allCalls (main loadWorld).trace).filterMap Call.chainsRequested = [1] := by
  decide

theorem bootstrap_class (w : World) (c : Call)
    (h : c ∈ allCalls (envEvents w ++ caEvents w ++ [vaEvent w])) :
    c.isBootstrapCall = true := by
  rw [mem_allCalls] at h
  obtain ⟨e, he, hc⟩ := h
  simp only [List.mem_append, List.mem_singleton] at he
  rcases he with (he | he) | he
  · simp only [envEvents, List.mem_cons, List.not_mem_nil, or_false] at he
    rcases he with he | he | he | he | he <;>
      (subst he; simp [Event.calls] at hc; subst hc; rfl)
  · unfold caEvents at he
    split at he
    · simp only [List.mem_cons, List.not_mem_nil, or_false] at he
      rcases he with he | he | he | he | he | he <;>
        (subst he; simp [Event.calls] at hc; subst hc; rfl)
    · simp only [List.mem_singleton] at he
      subst he; simp [Event.calls] at hc; subst hc; rfl
  · subst he; simp [Event.calls, vaEvent] at hc; subst hc; rfl

/-- Every call made after line 62 is a bootstrap call, a policy call or a
serve call. -/
theorem late_class (w : World) (c : Call)
    (h : c ∈ allCalls (envEvents w ++ caEvents w ++ vaEvent w :: policyAndServeEvents w)) :
    c.isBootstrapCall = true ∨ c.isPolicyCall = true ∨ c.isServeCall = true := by
  have hsplit : envEvents w ++ caEvents w ++ vaEvent w :: policyAndServeEvents w =
      (envEvents w ++ caEvents w ++ [vaEvent w]) ++ policyAndServeEvents w := by simp
  rw [hsplit, allCalls_append, List.mem_append] at h
  rcases h with h | h
  · exact Or.inl (bootstrap_class w c h)
  · exact Or.inr (policyAndServe_class w c h)

theorem main_trace_of_reached (w : World) (h1 : configFileOf w ≠ "")
    (h2 : w.failOnError (readErrOf w) "Reading JSON config file into config structure" ≠ true) :
    (main w).trace = startEvents w ++ readFailEvent w ::
      (envEvents w ++ caEvents w ++ vaEvent w :: policyAndServeEvents w) := by
  rw [main_trace, if_neg h1, if_neg h2]

/-- The configuration file read by a run that passes the flag check is the
one named by `-config`, and it is read once. -/
theorem configPaths_of_nonempty (w : World) (h1 : configFileOf w ≠ "") :
    (allCalls (main w).trace).filterMap Call.configPath = [configFileOf w] := by
  rw [main_trace, if_neg h1]
  rw [allCalls_append, List.filterMap_append]
  have hs : (allCalls (startEvents w)).filterMap Call.configPath = [configFileOf w] := by
    simp [startEvents, allCalls, Event.calls, Call.configPath]
  rw [hs]
  have ht : (allCalls (readFailEvent w ::
      if w.failOnError (readErrOf w) "Reading JSON config file into config structure" = true
      then []
      else envEvents w ++ caEvents w ++ vaEvent w :: policyAndServeEvents w)).filterMap
        Call.configPath = [] := by
    rw [List.filterMap_eq_nil_iff]
    intro c hc
    simp only [allCalls, readFailEvent, Event.calls, List.singleton_append, List.mem_cons] at hc
    rcases hc with hc | hc
    · subst hc; rfl
    · split at hc
      · simp [allCalls] at hc
      · rcases late_class w c hc with h | h | h <;>
          cases c <;> simp_all [Call.isBootstrapCall, Call.isPolicyCall, Call.isServeCall,
            Call.configPath]
  rw [ht]
  rfl

/-- C10: `-config` defaults to `test/config/pebble-config.json`; with an empty
value `main` prints the usage and exits with status 1, and does nothing else;
with a non-empty value the file read is exactly the one named, read once. -/
theorem empty_config_path_rejected (w : World) :
    (w.flagConfig = none →
      (allCalls (main w).trace).filterMap Call.configPath =
        ["test/config/pebble-config.json"]) ∧
    (w.flagConfig = some "" →
      main w = ⟨[.call .flagUsage, .call (.osExit 1)], none⟩) ∧
    (∀ p : String, w.flagConfig = some p → p ≠ "" →
      (allCalls (main w).trace).filterMap Call.configPath = [p]) := by
  refine ⟨?_, ?_, ?_⟩
  · intro h
    have hc : configFileOf w = "test/config/pebble-config.json" := by
      simp [configFileOf, h]
    have := configPaths_of_nonempty w (by rw [hc]; decide)
    rw [hc] at this
    exact this
  · intro h
    simp [main, h, osExit]
  · intro p h hp
    have hc : configFileOf w = p := by simp [configFileOf, h]
    have := configPaths_of_nonempty w (by rw [hc]; exact hp)
    rw [hc] at this
    exact this

theorem empty_config_path_rejected_witness :
    main emptyFlagWorld = ⟨[.call .flagUsage, .call (.osExit 1)], none⟩ :=
  (empty_config_path_rejected emptyFlagWorld).2.1 rfl

theorem store_reached (w : World) (h : Event.call .dbNewMemoryStore ∈ (main w).trace) :
    configFileOf w ≠ "" ∧
    w.failOnError (readErrOf w) "Reading JSON config file into config structure" ≠ true := by
  rw [main_trace] at h
  split at h
  · simp at h
  · rename_i h1
    refine ⟨h1, ?_⟩
    intro h2
    rw [if_pos h2] at h
    simp [startEvents, readFailEvent] at h

theorem post_constructor_class (w : World) (d : Call)
    (h : d ∈ allCalls (vaEvent w :: policyAndServeEvents w)) : d.isCAConstructor = false := by
  simp only [allCalls, vaEvent, Event.calls, List.singleton_append, List.mem_cons] at h
  rcases h with h | h
  · subst h; rfl
  · rcases policyAndServe_class w d h with h | h <;>
      cases d <;> simp_all [Call.isPolicyCall, Call.isServeCall, Call.isCAConstructor,
        Call.isLoadExistCa, Call.isPcaNew]

/-- C1: in a run that gets as far as creating the store (line 75), exactly one
constructor of the Issuance Engine is called, once, before any call of
`wfe.New`; it is `pca.LoadExistCa` if and only if `USE_X_CA` is one of `1`,
`t`, `T`, `TRUE`, `true`, `True` (the values `strconv.ParseBool` parses to
true), and `pca.New` for every other value. -/
theorem bootstrap_mode_once (w : World)
    (h : Event.call .dbNewMemoryStore ∈ (main w).trace) :
    ∃ (pre post : List Event) (c : Call),
      (main w).trace = pre ++ .call c :: post ∧
      c.isCAConstructor = true ∧
      (c.isLoadExistCa = true ↔ strconv.ParseBool (w.getenv "USE_X_CA") = (true, none)) ∧
      (c.isLoadExistCa = true ↔
        w.getenv "USE_X_CA" ∈ ["1", "t", "T", "TRUE", "true", "True"]) ∧
      (c.isPcaNew = true ↔
        w.getenv "USE_X_CA" ∉ ["1", "t", "T", "TRUE", "true", "True"]) ∧
      (∀ d ∈ allCalls pre, d.isCAConstructor = false ∧ d.isWfeNew = false) ∧
      (∀ d ∈ allCalls post, d.isCAConstructor = false) := by
  obtain ⟨h1, h2⟩ := store_reached w h
  have ht := main_trace_of_reached w h1 h2
  by_cases hx : useXCAOf w
  · have hp := (useXCAOf_iff w).1 hx
    have hl := (strconv.ParseBool_true_iff (w.getenv "USE_X_CA")).1 hp
    refine ⟨startEvents w ++ readFailEvent w :: (envEvents w ++
        [.call (.osGetenv "PATH_X_CA"),
         .call (.logPrintf "PATH_X_CA is %s" [.str (pathXCAOf w)]),
         .call (.osGetenv "IS_DES3_KEY"),
         .call (.osGetenv "X_CA_ROOT_CA_PASSWORD"),
         .call (.osGetenv "X_CA_TLS_CA_PASSWORD")]),
      vaEvent w :: policyAndServeEvents w, loadExistCaCall w, ?_, rfl, ?_, ?_, ?_, ?_, ?_⟩
    · rw [ht]
      simp [caEvents, hx]
    · exact ⟨fun _ => hp, fun _ => rfl⟩
    · exact ⟨fun _ => hl, fun _ => rfl⟩
    · constructor
      · intro hc; exact absurd hc (by simp [loadExistCaCall, Call.isPcaNew])
      · intro hn; exact absurd hl hn
    · intro d hd
      have hall : (allCalls (startEvents w ++ readFailEvent w :: (envEvents w ++
        [.call (.osGetenv "PATH_X_CA"),
         .call (.logPrintf "PATH_X_CA is %s" [.str (pathXCAOf w)]),
         .call (.osGetenv "IS_DES3_KEY"),
         .call (.osGetenv "X_CA_ROOT_CA_PASSWORD"),
         .call (.osGetenv "X_CA_TLS_CA_PASSWORD")]))).all
          (fun d => !d.isCAConstructor && !d.isWfeNew) = true := rfl
      have := List.all_eq_true.mp hall d hd
      simpa using this
    · exact post_constructor_class w
  · have hp : strconv.ParseBool (w.getenv "USE_X_CA") ≠ (true, none) :=
      fun hh => hx ((useXCAOf_iff w).2 hh)
    have hl : w.getenv "USE_X_CA" ∉ ["1", "t", "T", "TRUE", "true", "True"] :=
      fun hh => hp ((strconv.ParseBool_true_iff (w.getenv "USE_X_CA")).2 hh)
    refine ⟨startEvents w ++ readFailEvent w :: envEvents w,
      vaEvent w :: policyAndServeEvents w, newCall w, ?_, rfl, ?_, ?_, ?_, ?_, ?_⟩
    · rw [ht]
      simp [caEvents, hx]
    · constructor
      · intro hc; exact absurd hc (by simp [newCall, Call.isLoadExistCa])
      · intro hh; exact absurd hh hp
    · constructor
      · intro hc; exact absurd hc (by simp [newCall, Call.isLoadExistCa])
      · intro hh; exact absurd hh hl
    · exact ⟨fun _ => hl, fun _ => rfl⟩
    · intro d hd
      have hall : (allCalls (startEvents w ++ readFailEvent w :: envEvents w)).all
          (fun d => !d.isCAConstructor && !d.isWfeNew) = true := rfl
      have := List.all_eq_true.mp hall d hd
      simpa using this
    · exact post_constructor_class w

theorem bootstrap_mode_once_witness :
    ∃ (pre post : List Event) (c : Call),
      (main loadWorld).trace = pre ++ .call c :: post ∧
      c.isCAConstructor = true ∧
      (c.isLoadExistCa = true ↔
        strconv.ParseBool (loadWorld.getenv "USE_X_CA") = (true, none)) ∧
      (c.isLoadExistCa = true ↔
        loadWorld.getenv "USE_X_CA" ∈ ["1", "t", "T", "TRUE", "true", "True"]) ∧
      (c.isPcaNew = true ↔
        loadWorld.getenv "USE_X_CA" ∉ ["1", "t", "T", "TRUE", "true", "True"]) ∧
      (∀ d ∈ allCalls pre, d.isCAConstructor = false ∧ d.isWfeNew = false) ∧
      (∀ d ∈ allCalls post, d.isCAConstructor = false) :=
  bootstrap_mode_once loadWorld (by decide)

theorem start_class (w : World) (c : Call)
    (h : c ∈ allCalls (startEvents w ++ [readFailEvent w])) : c.isStartCall = true := by
  have hall : (allCalls (startEvents w ++ [readFailEvent w])).all Call.isStartCall = true := rfl
  exact List.all_eq_true.mp hall c h

/-- A run that calls `wfe.New` or `wfeImpl.Handler` has passed the flag check,
the reading of the configuration and both policy loops. -/
theorem serve_reached (w : World) (c : Call) (hc : c.isWfeCall = true)
    (h : Event.call c ∈ (main w).trace) :
    configFileOf w ≠ "" ∧
    w.failOnError (readErrOf w) "Reading JSON config file into config structure" ≠ true ∧
    (addExternalAccountKeys w (configOf w).ExternalAccountMACKeys).value = some () ∧
    (addBlockedDomains w (configOf w).DomainBlocklist).value = some () ∧
    Event.call c ∈ serveEvents w := by
  rw [main_trace] at h
  split at h
  · simp at h
    rcases h with h | h <;> (subst h; cases hc)
  · rename_i h1
    simp only [List.mem_append, List.mem_cons] at h
    rcases h with h | h | h
    · have := start_class w c (by
        rw [mem_allCalls]
        exact ⟨_, List.mem_append_left _ h, by simp [Event.calls]⟩)
      cases c <;> simp_all [Call.isWfeCall, Call.isStartCall]
    · simp only [readFailEvent, Event.call.injEq] at h
      subst h; cases hc
    · split at h
      · simp at h
      · rename_i h2
        simp only [List.mem_append, List.mem_cons] at h
        have hb : ¬ Event.call c ∈ envEvents w ++ caEvents w ++ [vaEvent w] := by
          intro hm
          have := bootstrap_class w c (by
            rw [mem_allCalls]
            exact ⟨_, hm, by simp [Event.calls]⟩)
          cases c <;> simp_all [Call.isWfeCall, Call.isBootstrapCall]
        rcases h with (h | h) | h | h
        · exact absurd (by simp [h]) hb
        · exact absurd (by simp [h]) hb
        · exact absurd (by simp [h]) hb
        · simp only [policyAndServeEvents, List.mem_append] at h
          have hp : ∀ e, (e ∈ (addExternalAccountKeys w (configOf w).ExternalAccountMACKeys).trace ∨
              e ∈ (addBlockedDomains w (configOf w).DomainBlocklist).trace) →
              e ≠ Event.call c := by
            intro e he heq
            subst heq
            have := policy_loop_class w _ he c (by simp [Event.calls])
            cases c <;> simp_all [Call.isWfeCall, Call.isPolicyCall]
          rcases h with h | h
          · exact absurd rfl (hp _ (Or.inl h))
          · split at h
            · simp at h
            · rename_i u hv1
              simp only [List.mem_append] at h
              rcases h with h | h
              · exact absurd rfl (hp _ (Or.inr h))
              · split at h
                · simp at h
                · rename_i u2 hv2
                  exact ⟨h1, h2, hv1, hv2, h⟩

theorem main_trace_of_served (w : World) (h1 : configFileOf w ≠ "")
    (h2 : w.failOnError (readErrOf w) "Reading JSON config file into config structure" ≠ true)
    (hv1 : (addExternalAccountKeys w (configOf w).ExternalAccountMACKeys).value = some ())
    (hv2 : (addBlockedDomains w (configOf w).DomainBlocklist).value = some ()) :
    (main w).trace = (startEvents w ++ [readFailEvent w]) ++
      ((envEvents w ++ caEvents w ++ [vaEvent w]) ++
        ((addExternalAccountKeys w (configOf w).ExternalAccountMACKeys).trace ++
          ((addBlockedDomains w (configOf w).DomainBlocklist).trace ++ serveEvents w))) := by
  rw [main_trace_of_reached w h1 h2]
  simp [policyAndServeEvents, hv1, hv2]

theorem not_adminExits_of (w : World)
    (h : (configOf w).ManagementListenAddress = "" ∨
      (adminGoroutine w ⟨configOf w⟩).exits = false) : ¬ adminExits w := by
  unfold adminExits
  rintro ⟨h1, h2⟩
  rcases h with h | h
  · exact h1 h
  · rw [h] at h2; cases h2

theorem serveTail_of_not_exits (w : World) (h : ¬ adminExits w) :
    serveTail w = managementEvents w ++ listenEvents w := by
  unfold serveTail
  rw [if_neg h]

theorem serve_tail_class (w : World) (d : Call)
    (h : d ∈ allCalls (.call .wfeHandler :: serveTail w)) :
    d.isServeCall = true ∧ d.isWfeNew = false := by
  rw [mem_allCalls] at h
  obtain ⟨e, he, hd⟩ := h
  simp only [List.mem_cons] at he
  rcases he with he | he
  · subst he; simp [Event.calls] at hd; subst hd; exact ⟨rfl, rfl⟩
  · exact uncut_class w e (serveTail_subset w e he) d hd

theorem wfeNew_in_serve (w : World) (s r : Bool)
    (h : Event.call (.wfeNew s r) ∈ serveEvents w) :
    Event.call (.wfeNew s r) =
      .call (.wfeNew (w.flagStrict.getD false) (configOf w).ExternalAccountBindingRequired) := by
  unfold serveEvents at h
  simp only [List.mem_cons] at h
  rcases h with h | h | h
  · exact h
  · cases h
  · have := (serve_tail_class w (.wfeNew s r) (by
      rw [mem_allCalls]
      exact ⟨_, List.mem_cons_of_mem _ h, by simp [Event.calls]⟩)).2
    cases this

theorem early_call_props (d : Call) (h : d.isStartCall = true ∨ d.isBootstrapCall = true) :
    d.externalAccountKey = none ∧ d.blockedDomain = none ∧ d.isWfeNew = false ∧
    d.isListen = false := by
  rcases h with h | h <;> cases d <;>
    simp_all [Call.isStartCall, Call.isBootstrapCall, Call.externalAccountKey,
      Call.blockedDomain, Call.isWfeNew, Call.isListen]

theorem policy_call_props (d : Call) (h : d.isPolicyCall = true) :
    d.isWfeNew = false ∧ d.isListen = false ∧ d.isWfeCall = false := by
  cases d <;> simp_all [Call.isPolicyCall, Call.isWfeNew, Call.isListen, Call.isWfeCall]

theorem serve_call_props (d : Call) (h : d.isServeCall = true) :
    d.externalAccountKey = none ∧ d.blockedDomain = none ∧ d.returnedError = none := by
  cases d <;> simp_all [Call.isServeCall, Call.externalAccountKey, Call.blockedDomain,
    Call.returnedError]

/-- C4: in a run that reaches `wfe.New`, every entry of
`ExternalAccountMACKeys` and every entry of `DomainBlocklist` has been added to
the store exactly once, in order, before `wfe.New`; no call of `wfe.New` or
`http.ListenAndServeTLS` comes earlier, and no entry is added afterwards. -/
theorem policy_tables_before_engine (w : World) (s r : Bool)
    (h : Event.call (.wfeNew s r) ∈ (main w).trace) :
    ∃ (pre post : List Event),
      (main w).trace = pre ++ .call (.wfeNew s r) :: post ∧
      (allCalls pre).filterMap Call.externalAccountKey =
        (configOf w).ExternalAccountMACKeys ∧
      (allCalls pre).filterMap Call.blockedDomain = (configOf w).DomainBlocklist ∧
      (∀ d ∈ allCalls pre, d.isWfeNew = false ∧ d.isListen = false) ∧
      (∀ d ∈ allCalls post,
        d.isWfeNew = false ∧ d.externalAccountKey = none ∧ d.blockedDomain = none) ∧
      ((configOf w).ManagementListenAddress = "" ∨
          (adminGoroutine w ⟨configOf w⟩).exits = false →
        Event.call (.httpListenAndServeTLS (configOf w).ListenAddress (configOf w).Certificate
          (configOf w).PrivateKey .muxHandler) ∈ post) := by
  obtain ⟨h1, h2, hv1, hv2, hs⟩ := serve_reached w (.wfeNew s r) rfl h
  have ht := main_trace_of_served w h1 h2 hv1 hv2
  have hw := wfeNew_in_serve w s r hs
  clear h hs
  have hearly : ∀ d ∈ allCalls ((startEvents w ++ [readFailEvent w]) ++
      (envEvents w ++ caEvents w ++ [vaEvent w])),
      d.isStartCall = true ∨ d.isBootstrapCall = true := by
    intro d hd
    rw [allCalls_append, List.mem_append] at hd
    rcases hd with hd | hd
    · exact Or.inl (start_class w d hd)
    · exact Or.inr (bootstrap_class w d hd)
  have hloop : ∀ d ∈ allCalls
      ((addExternalAccountKeys w (configOf w).ExternalAccountMACKeys).trace ++
        (addBlockedDomains w (configOf w).DomainBlocklist).trace),
      d.isPolicyCall = true := by
    intro d hd
    rw [mem_allCalls] at hd
    obtain ⟨e, he, hd⟩ := hd
    exact policy_loop_class w e (List.mem_append.mp he) d hd
  refine ⟨((startEvents w ++ [readFailEvent w]) ++ (envEvents w ++ caEvents w ++ [vaEvent w])) ++
      ((addExternalAccountKeys w (configOf w).ExternalAccountMACKeys).trace ++
        (addBlockedDomains w (configOf w).DomainBlocklist).trace),
    .call .wfeHandler :: serveTail w, ?_, ?_, ?_, ?_, ?_, ?_⟩
  · rw [ht, hw]
    simp [serveEvents]
  · have e1 : (allCalls ((startEvents w ++ [readFailEvent w]) ++
        (envEvents w ++ caEvents w ++ [vaEvent w]))).filterMap Call.externalAccountKey = [] := by
      rw [List.filterMap_eq_nil_iff]
      intro d hd
      exact (early_call_props d (hearly d hd)).1
    have e2 : (allCalls (addBlockedDomains w (configOf w).DomainBlocklist).trace).filterMap
        Call.externalAccountKey = [] := by
      rw [List.filterMap_eq_nil_iff]
      intro d hd
      rw [mem_allCalls] at hd
      obtain ⟨e, he, hd⟩ := hd
      rcases addBlockedDomains_mem w _ _ he with ⟨_, _, he⟩ | ⟨_, _, he⟩ <;>
        (subst he; simp [Event.calls] at hd; subst hd; rfl)
    rw [allCalls_append, List.filterMap_append, e1,
      allCalls_append, List.filterMap_append, e2,
      addExternalAccountKeys_added w _ hv1]
    simp
  · have e1 : (allCalls ((startEvents w ++ [readFailEvent w]) ++
        (envEvents w ++ caEvents w ++ [vaEvent w]))).filterMap Call.blockedDomain = [] := by
      rw [List.filterMap_eq_nil_iff]
      intro d hd
      exact (early_call_props d (hearly d hd)).2.1
    have e2 : (allCalls (addExternalAccountKeys w
        (configOf w).ExternalAccountMACKeys).trace).filterMap Call.blockedDomain = [] := by
      rw [List.filterMap_eq_nil_iff]
      intro d hd
      rw [mem_allCalls] at hd
      obtain ⟨e, he, hd⟩ := hd
      rcases addExternalAccountKeys_mem w _ _ he with ⟨_, _, _, he⟩ | ⟨_, _, he⟩ <;>
        (subst he; simp [Event.calls] at hd; subst hd; rfl)
    rw [allCalls_append, List.filterMap_append, e1,
      allCalls_append, List.filterMap_append, e2,
      addBlockedDomains_added w _ hv2]
    simp
  · intro d hd
    rw [allCalls_append, List.mem_append] at hd
    rcases hd with hd | hd
    · have := early_call_props d (hearly d hd)
      exact ⟨this.2.2.1, this.2.2.2⟩
    · have := policy_call_props d (hloop d hd)
      exact ⟨this.1, this.2.1⟩
  · intro d hd
    obtain ⟨hc, hn⟩ := serve_tail_class w d hd
    have := serve_call_props d hc
    exact ⟨hn, this.1, this.2.1⟩
  · intro hq
    rw [serveTail_of_not_exits w (not_adminExits_of w hq)]
    simp [listenEvents]

theorem policy_tables_before_engine_witness :
    ∃ (pre post : List Event),
      (main demoWorld).trace = pre ++ .call (.wfeNew false false) :: post ∧
      (allCalls pre).filterMap Call.externalAccountKey =
        (configOf demoWorld).ExternalAccountMACKeys ∧
      (allCalls pre).filterMap Call.blockedDomain = (configOf demoWorld).DomainBlocklist ∧
      (∀ d ∈ allCalls pre, d.isWfeNew = false ∧ d.isListen = false) ∧
      (∀ d ∈ allCalls post,
        d.isWfeNew = false ∧ d.externalAccountKey = none ∧ d.blockedDomain = none) ∧
      ((configOf demoWorld).ManagementListenAddress = "" ∨
          (adminGoroutine demoWorld ⟨configOf demoWorld⟩).exits = false →
        Event.call (.httpListenAndServeTLS (configOf demoWorld).ListenAddress
          (configOf demoWorld).Certificate (configOf demoWorld).PrivateKey .muxHandler)
          ∈ post) :=
  policy_tables_before_engine demoWorld false false (by decide)

/-! ## The admin interface -/

theorem goBodies_call_cons (c : Call) (t : List Event) :
    goBodies (.call c :: t) = goBodies t := rfl

theorem filter_plain_cons (c : Call) (t : List Event) (hc : c.isListen = false) :
    (Event.call c :: t).filter Event.isListenCall = t.filter Event.isListenCall := by
  simp [Event.isListenCall, hc]

theorem plain_calls (t : List Event)
    (h : ∀ e ∈ t, ∃ c, e = Event.call c ∧ c.isListen = false) :
    goBodies t = [] ∧ t.filter Event.isListenCall = [] := by
  induction t with
  | nil => exact ⟨rfl, rfl⟩
  | cons e t ih =>
    obtain ⟨c, he, hc⟩ := h e (List.mem_cons_self _ _)
    have := ih (fun e' he' => h e' (List.mem_cons_of_mem _ he'))
    subst he
    simp [goBodies, Event.isListenCall, hc, this.1, this.2]

theorem policy_loops_plain (w : World) (e : Event)
    (h : e ∈ (addExternalAccountKeys w (configOf w).ExternalAccountMACKeys).trace ++
      (addBlockedDomains w (configOf w).DomainBlocklist).trace) :
    ∃ c, e = Event.call c ∧ c.isListen = false := by
  rcases List.mem_append.mp h with h | h
  · rcases addExternalAccountKeys_mem w _ _ h with ⟨_, _, _, h⟩ | ⟨_, _, h⟩ <;>
      exact ⟨_, h, rfl⟩
  · rcases addBlockedDomains_mem w _ _ h with ⟨_, _, h⟩ | ⟨_, _, h⟩ <;>
      exact ⟨_, h, rfl⟩

theorem before_serve_plain (w : World) :
    goBodies ((startEvents w ++ [readFailEvent w]) ++
      ((envEvents w ++ caEvents w ++ [vaEvent w]) ++
        ((addExternalAccountKeys w (configOf w).ExternalAccountMACKeys).trace ++
          (addBlockedDomains w (configOf w).DomainBlocklist).trace))) = [] ∧
    ((startEvents w ++ [readFailEvent w]) ++
      ((envEvents w ++ caEvents w ++ [vaEvent w]) ++
        ((addExternalAccountKeys w (configOf w).ExternalAccountMACKeys).trace ++
          (addBlockedDomains w (configOf w).DomainBlocklist).trace))).filter
      Event.isListenCall = [] := by
  have hA : goBodies (startEvents w ++ [readFailEvent w]) = [] ∧
      (startEvents w ++ [readFailEvent w]).filter Event.isListenCall = [] := ⟨rfl, rfl⟩
  have hB : goBodies (envEvents w ++ caEvents w ++ [vaEvent w]) = [] ∧
      (envEvents w ++ caEvents w ++ [vaEvent w]).filter Event.isListenCall = [] := by
    unfold caEvents
    split <;> exact ⟨rfl, rfl⟩
  have hL := plain_calls _ (policy_loops_plain w)
  simp only [goBodies_append, List.filter_append, hA.1, hA.2, hB.1, hB.2, hL.1, hL.2,
    List.append_nil, and_self]

theorem listenEvents_plain (w : World) :
    goBodies (listenEvents w) = [] ∧
    (listenEvents w).filter Event.isListenCall =
      [.call (.httpListenAndServeTLS (configOf w).ListenAddress (configOf w).Certificate
        (configOf w).PrivateKey .muxHandler)] := by
  unfold listenEvents
  cases w.listenAndServeTLS (configOf w).ListenAddress <;> exact ⟨rfl, rfl⟩

theorem announce_plain (w : World) (addr : String) (n : Int) (fuel : Nat) (i : Int) :
    goBodies (announceAlternateRoots w addr n fuel i).trace = [] ∧
    (announceAlternateRoots w addr n fuel i).trace.filter Event.isListenCall = [] := by
  apply plain_calls
  intro e he
  obtain ⟨k, hk⟩ := announceAlternateRoots_mem _ _ _ _ _ _ he
  exact ⟨_, hk, rfl⟩

theorem managementEvents_plain (w : World) :
    goBodies (managementEvents w) =
      (if (configOf w).ManagementListenAddress = "" then []
        else [(adminGoroutine w ⟨configOf w⟩).calls]) ∧
    (managementEvents w).filter Event.isListenCall = [] := by
  unfold managementEvents
  split
  · exact ⟨rfl, rfl⟩
  · have := announce_plain w (configOf w).ManagementListenAddress (alternateRootsOf w)
      ((alternateRootsOf w).toNat + 1) 0
    simp [goBodies, Event.isListenCall, Call.isListen, this.1, this.2]

theorem goBodies_of_calls (t : List Event) (h : ∀ e ∈ t, ∃ c, e = Event.call c) :
    goBodies t = [] := by
  induction t with
  | nil => rfl
  | cons e t ih =>
    obtain ⟨c, he⟩ := h e (List.mem_cons_self _ _)
    subst he
    rw [goBodies_call_cons]
    exact ih (fun e' he' => h e' (List.mem_cons_of_mem _ he'))

/-- The whole of lines 120-149 starts at most one goroutine, the admin one. -/
theorem uncut_goBodies (w : World) :
    goBodies (managementEvents w ++ listenEvents w) =
      (if (configOf w).ManagementListenAddress = "" then []
        else [(adminGoroutine w ⟨configOf w⟩).calls]) := by
  rw [goBodies_append, (managementEvents_plain w).1, (listenEvents_plain w).1]
  simp

theorem goBodies_take_succ (body : List Call) (t : List Event) (n : Nat)
    (ht : goBodies t = []) : goBodies ((Event.go body :: t).take (n + 1)) = [body] := by
  have hcalls : ∀ (l : List Event), goBodies l = [] → ∀ e ∈ l, ∃ c, e = Event.call c := by
    intro l
    induction l with
    | nil => intro _ e he; cases he
    | cons x l ih =>
      intro hl e he
      cases x with
      | call c =>
        rw [goBodies_call_cons] at hl
        rcases List.mem_cons.mp he with he | he
        · exact ⟨c, he⟩
        · exact ih hl e he
      | go b => simp [goBodies] at hl
  have : goBodies (t.take n) = [] :=
    goBodies_of_calls _ (fun e he => hcalls t ht e (List.mem_of_mem_take he))
  simp [List.take_succ_cons, goBodies, this]

/-- The goroutines started by what happens after line 118. -/
theorem serveTail_goBodies (w : World) :
    goBodies (serveTail w) =
      (if (configOf w).ManagementListenAddress = "" then []
        else [(adminGoroutine w ⟨configOf w⟩).calls]) := by
  unfold serveTail
  split
  · rename_i hx
    have hm : ¬ (configOf w).ManagementListenAddress = "" := hx.1
    rw [if_neg hm]
    have hM := managementEvents_plain w
    have hL := listenEvents_plain w
    unfold managementEvents at hM ⊢
    rw [if_neg hm] at hM ⊢
    rw [List.cons_append]
    apply goBodies_take_succ
    have h1 := hM.1
    simp only [goBodies, if_neg hm, List.cons.injEq, true_and] at h1
    rw [goBodies_append, hL.1]
    simpa [goBodies, goBodies_append] using h1
  · exact uncut_goBodies w

/-- Any call of `http.ListenAndServeTLS` made by the main goroutine after line
118 is the one of line 144. -/
theorem serveTail_listen (w : World) (e : Event) (he : e ∈ serveTail w)
    (hl : e.isListenCall = true) :
    e = .call (.httpListenAndServeTLS (configOf w).ListenAddress (configOf w).Certificate
      (configOf w).PrivateKey .muxHandler) := by
  have hmem := serveTail_subset w e he
  have hf : e ∈ (managementEvents w ++ listenEvents w).filter Event.isListenCall :=
    List.mem_filter.mpr ⟨hmem, hl⟩
  rw [List.filter_append, (managementEvents_plain w).2, (listenEvents_plain w).2] at hf
  simpa using hf

theorem no_admin_before_serve (w : World) (d : Call)
    (h : d ∈ allCalls ((startEvents w ++ [readFailEvent w]) ++
      ((envEvents w ++ caEvents w ++ [vaEvent w]) ++
        ((addExternalAccountKeys w (configOf w).ExternalAccountMACKeys).trace ++
          (addBlockedDomains w (configOf w).DomainBlocklist).trace)))) :
    d.announcedRoot = none ∧ d.isAdminCall = false := by
  rw [allCalls_append, List.mem_append] at h
  rcases h with h | h
  on_goal 2 => rw [allCalls_append, List.mem_append] at h
  on_goal 2 => rcases h with h | h
  · have hall : (allCalls (startEvents w ++ [readFailEvent w])).all
        (fun d => d.announcedRoot.isNone && !d.isAdminCall) = true := rfl
    have := List.all_eq_true.mp hall d h
    simpa using this
  · have hall : (allCalls (envEvents w ++ caEvents w ++ [vaEvent w])).all
        (fun d => d.announcedRoot.isNone && !d.isAdminCall) = true := by
      unfold caEvents
      split <;> rfl
    have := List.all_eq_true.mp hall d h
    simpa using this
  · rw [mem_allCalls] at h
    obtain ⟨e, he, hd⟩ := h
    have := policy_loop_class w e (List.mem_append.mp he) d hd
    cases d <;> simp_all [Call.isPolicyCall, Call.announcedRoot, Call.isAdminCall]

/-- C8, as stated, fails when the admin listener cannot be started: the run
gets as far as `wfeImpl.Handler()` and starts the admin goroutine, whose
`http.ListenAndServeTLS` returns an error that `cmd.FailOnError` turns into
the end of the process; the main goroutine never calls
`http.ListenAndServeTLS` on `ListenAddress`. -/
theorem protocol_listener_preempted :
    Event.call .wfeHandler ∈ (main adminFailWorld).trace ∧
    goBodies (main adminFailWorld).trace =
      [[.wfeManagementHandler,
        .httpListenAndServeTLS "0.0.0.0:15000" "cert.pem" "key.pem" .adminHandler,
        .cmdFailOnError (some ⟨"bind: address already in use"⟩)
          "Calling ListenAndServeTLS() for admin interface"]] ∧
    (main adminFailWorld).trace.filter Event.isListenCall = [] ∧
    (main adminFailWorld).value = none := by
  decide

/-- C8, amended: in a run that gets as far as `wfeImpl.Handler()` (line 118),
the admin goroutine, which serves `wfeImpl.ManagementHandler()` on
`ManagementListenAddress`, is started if and only if that address is not
empty; with an empty address there is no admin call and no root-certificate
location is announced; the only call of `http.ListenAndServeTLS` the main
goroutine ever makes is the one on `ListenAddress` with `wfeImpl.Handler()`,
and it makes that call, once, whenever the admin goroutine does not end the
process (it is not started, or its `cmd.FailOnError` does not exit). -/
theorem management_listener_optional (w : World)
    (h : Event.call .wfeHandler ∈ (main w).trace) :
    ((configOf w).ManagementListenAddress ≠ "" →
      ∃ rest, goBodies (main w).trace =
        [[.wfeManagementHandler,
          .httpListenAndServeTLS (configOf w).ManagementListenAddress (configOf w).Certificate
            (configOf w).PrivateKey .adminHandler] ++ rest]) ∧
    ((configOf w).ManagementListenAddress = "" →
      goBodies (main w).trace = [] ∧
      ∀ d ∈ allCalls (main w).trace, d.announcedRoot = none ∧ d.isAdminCall = false) ∧
    (∀ e ∈ (main w).trace, e.isListenCall = true →
      e = .call (.httpListenAndServeTLS (configOf w).ListenAddress (configOf w).Certificate
        (configOf w).PrivateKey .muxHandler)) ∧
    ((configOf w).ManagementListenAddress = "" ∨
        (adminGoroutine w ⟨configOf w⟩).exits = false →
      (main w).trace.filter Event.isListenCall =
        [.call (.httpListenAndServeTLS (configOf w).ListenAddress (configOf w).Certificate
          (configOf w).PrivateKey .muxHandler)]) := by
  obtain ⟨h1, h2, hv1, hv2, _⟩ := serve_reached w .wfeHandler rfl h
  have ht : (main w).trace = ((startEvents w ++ [readFailEvent w]) ++
      ((envEvents w ++ caEvents w ++ [vaEvent w]) ++
        ((addExternalAccountKeys w (configOf w).ExternalAccountMACKeys).trace ++
          (addBlockedDomains w (configOf w).DomainBlocklist).trace))) ++ serveEvents w := by
    rw [main_trace_of_served w h1 h2 hv1 hv2]
    simp
  clear h
  have hP := before_serve_plain w
  have hM := managementEvents_plain w
  have hLs := listenEvents_plain w
  have hg : goBodies (main w).trace =
      (if (configOf w).ManagementListenAddress = "" then []
        else [(adminGoroutine w ⟨configOf w⟩).calls]) := by
    rw [ht, goBodies_append, hP.1]
    unfold serveEvents
    rw [goBodies_call_cons, goBodies_call_cons, serveTail_goBodies]
    simp
  refine ⟨?_, ?_, ?_, ?_⟩
  · intro hm
    rw [hg, if_neg hm]
    unfold adminGoroutine
    cases w.listenAndServeTLS (configOf w).ManagementListenAddress with
    | none => exact ⟨[], rfl⟩
    | some e => exact ⟨[_], rfl⟩
  · intro hm
    refine ⟨by rw [hg, if_pos hm], ?_⟩
    intro d hd
    rw [ht, allCalls_append, List.mem_append] at hd
    rcases hd with hd | hd
    · exact no_admin_before_serve w d hd
    · have hall : (allCalls (serveEvents w)).all
          (fun d => d.announcedRoot.isNone && !d.isAdminCall) = true := by
        unfold serveEvents
        rw [serveTail_of_not_exits w (not_adminExits_of w (Or.inl hm))]
        unfold managementEvents listenEvents
        rw [if_pos hm]
        cases w.listenAndServeTLS (configOf w).ListenAddress <;> rfl
      have := List.all_eq_true.mp hall d hd
      simpa using this
  · intro e he hl
    rw [ht, List.mem_append] at he
    rcases he with he | he
    · have : e ∈ (((startEvents w ++ [readFailEvent w]) ++
          ((envEvents w ++ caEvents w ++ [vaEvent w]) ++
            ((addExternalAccountKeys w (configOf w).ExternalAccountMACKeys).trace ++
              (addBlockedDomains w (configOf w).DomainBlocklist).trace)))).filter
          Event.isListenCall := List.mem_filter.mpr ⟨he, hl⟩
      rw [hP.2] at this
      cases this
    · unfold serveEvents at he
      simp only [List.mem_cons] at he
      rcases he with he | he | he
      · subst he; cases hl
      · subst he; cases hl
      · exact serveTail_listen w e he hl
  · intro hq
    rw [ht, List.filter_append, hP.2]
    unfold serveEvents
    rw [filter_plain_cons (.wfeNew (w.flagStrict.getD false)
        (configOf w).ExternalAccountBindingRequired) _ rfl,
      filter_plain_cons .wfeHandler _ rfl,
      serveTail_of_not_exits w (not_adminExits_of w hq), List.filter_append, hM.2, hLs.2]
    rfl

theorem management_listener_optional_witness :
    ((configOf demoWorld).ManagementListenAddress ≠ "" →
      ∃ rest, goBodies (main demoWorld).trace =
        [[.wfeManagementHandler,
          .httpListenAndServeTLS (configOf demoWorld).ManagementListenAddress
            (configOf demoWorld).Certificate (configOf demoWorld).PrivateKey .adminHandler]
          ++ rest]) ∧
    ((configOf demoWorld).ManagementListenAddress = "" →
      goBodies (main demoWorld).trace = [] ∧
      ∀ d ∈ allCalls (main demoWorld).trace,
        d.announcedRoot = none ∧ d.isAdminCall = false) ∧
    (∀ e ∈ (main demoWorld).trace, e.isListenCall = true →
      e = .call (.httpListenAndServeTLS (configOf demoWorld).ListenAddress
        (configOf demoWorld).Certificate (configOf demoWorld).PrivateKey .muxHandler)) ∧
    ((configOf demoWorld).ManagementListenAddress = "" ∨
        (adminGoroutine demoWorld ⟨configOf demoWorld⟩).exits = false →
      (main demoWorld).trace.filter Event.isListenCall =
        [.call (.httpListenAndServeTLS (configOf demoWorld).ListenAddress
          (configOf demoWorld).Certificate (configOf demoWorld).PrivateKey .muxHandler)]) :=
  management_listener_optional demoWorld (by decide)

/-! ## Fail-fast start-up -/

theorem failStop_nil : FailStop [] := by
  intro pre post c err hs _
  simp at hs

theorem failStop_cons_ok (e : Event) (t : List Event)
    (he : ∀ c, e = Event.call c → c.returnedError = none) (ht : FailStop t) :
    FailStop (e :: t) := by
  intro pre post c err hs hc
  cases pre with
  | nil =>
    simp only [List.nil_append, List.cons.injEq] at hs
    have := he c hs.1
    rw [this] at hc
    cases hc
  | cons x pre' =>
    simp only [List.cons_append, List.cons.injEq] at hs
    exact ht pre' post c err hs.2 hc

theorem failStop_append_ok (a t : List Event)
    (ha : ∀ e ∈ a, ∀ c, e = Event.call c → c.returnedError = none) (ht : FailStop t) :
    FailStop (a ++ t) := by
  induction a with
  | nil => exact ht
  | cons e a ih =>
    exact failStop_cons_ok e (a ++ t) (ha e (List.mem_cons_self _ _))
      (ih (fun e' he' => ha e' (List.mem_cons_of_mem _ he')))

theorem failStop_fail (c : Call) (err : GoError) (m : String)
    (hc : c.returnedError = some err) :
    FailStop [.call c, .call (.cmdFailOnError (some err) m)] := by
  intro pre post c' err' hs hc'
  cases pre with
  | nil =>
    simp only [List.nil_append, List.cons.injEq, Event.call.injEq] at hs
    obtain ⟨h1, h2⟩ := hs
    subst h1
    rw [hc] at hc'
    cases hc'
    exact ⟨m, h2.symm⟩
  | cons x pre' =>
    simp only [List.cons_append, List.cons.injEq] at hs
    obtain ⟨_, h2⟩ := hs
    cases pre' with
    | nil =>
      simp only [List.nil_append, List.cons.injEq, Event.call.injEq] at h2
      obtain ⟨h3, _⟩ := h2
      subst h3
      cases hc'
    | cons y pre'' => simp at h2

theorem addExternalAccountKeys_failStop (w : World)
    (hF : ∀ e m, w.failOnError e m = e.isSome) :
    ∀ (l : List (String × String)) (cont : List Event), FailStop cont →
      FailStop ((addExternalAccountKeys w l).trace ++
        match (addExternalAccountKeys w l).value with
        | none => []
        | some _ => cont) := by
  intro l
  induction l with
  | nil => intro cont hcont; exact hcont
  | cons kv rest ih =>
    obtain ⟨k, v⟩ := kv
    intro cont hcont
    rw [addExternalAccountKeys_cons]
    cases herr : w.addExternalAccountKeyByID k v with
    | none =>
      rw [if_neg (by rw [hF]; simp)]
      exact failStop_cons_ok _ _ (by intro c hc; cases hc; rfl)
        (failStop_cons_ok _ _ (by intro c hc; cases hc; rfl) (ih cont hcont))
    | some e =>
      rw [if_pos (by rw [hF]; rfl)]
      exact failStop_fail _ e _ rfl

theorem addBlockedDomains_failStop (w : World)
    (hF : ∀ e m, w.failOnError e m = e.isSome) :
    ∀ (l : List String) (cont : List Event), FailStop cont →
      FailStop ((addBlockedDomains w l).trace ++
        match (addBlockedDomains w l).value with
        | none => []
        | some _ => cont) := by
  intro l
  induction l with
  | nil => intro cont hcont; exact hcont
  | cons d rest ih =>
    intro cont hcont
    rw [addBlockedDomains_cons]
    cases herr : w.addBlockedDomain d with
    | none =>
      rw [if_neg (by rw [hF]; simp)]
      exact failStop_cons_ok _ _ (by intro c hc; cases hc; rfl)
        (failStop_cons_ok _ _ (by intro c hc; cases hc; rfl) (ih cont hcont))
    | some e =>
      rw [if_pos (by rw [hF]; rfl)]
      exact failStop_fail _ e _ rfl

theorem bootstrap_call_ok (d : Call) (h : d.isBootstrapCall = true) :
    d.returnedError = none := by
  cases d <;> simp_all [Call.isBootstrapCall, Call.returnedError]

theorem policyAndServe_failStop (w : World) (hF : ∀ e m, w.failOnError e m = e.isSome) :
    FailStop (policyAndServeEvents w) := by
  unfold policyAndServeEvents
  apply addExternalAccountKeys_failStop w hF
  apply addBlockedDomains_failStop w hF
  have := failStop_append_ok (serveEvents w) [] (by
    intro e he c hc
    subst hc
    exact (serve_call_props c (serveEvents_class w _ he c (by simp [Event.calls]))).2.2)
    failStop_nil
  simpa using this

/-- Under the assumption on `cmd.FailOnError`, a run stops right after a
failed call. -/
theorem main_failStop (w : World) (hF : ∀ e m, w.failOnError e m = e.isSome) :
    FailStop (main w).trace := by
  rw [main_trace]
  split
  · exact failStop_cons_ok _ _ (by intro c hc; cases hc; rfl)
      (failStop_cons_ok _ _ (by intro c hc; cases hc; rfl) failStop_nil)
  · cases hre : readErrOf w with
    | none =>
      rw [if_neg (by rw [hF]; simp)]
      unfold startEvents readFailEvent
      rw [hre]
      refine failStop_cons_ok _ _ (by intro c hc; cases hc; rfl)
        (failStop_cons_ok _ _ (by intro c hc; cases hc; rfl)
          (failStop_cons_ok _ _ (by intro c hc; cases hc; rfl)
            (failStop_cons_ok _ _ (by intro c hc; cases hc; rfl) ?_)))
      have hsplit : envEvents w ++ caEvents w ++ vaEvent w :: policyAndServeEvents w =
          (envEvents w ++ caEvents w ++ [vaEvent w]) ++ policyAndServeEvents w := by simp
      rw [hsplit]
      apply failStop_append_ok
      · intro e he c hc
        subst hc
        exact bootstrap_call_ok c (bootstrap_class w c (by
          rw [mem_allCalls]
          exact ⟨_, he, by simp [Event.calls]⟩))
      · exact policyAndServe_failStop w hF
    | some e =>
      rw [if_pos (by rw [hF]; rfl)]
      unfold startEvents readFailEvent
      rw [hre]
      exact failStop_cons_ok _ _ (by intro c hc; cases hc; rfl)
        (failStop_cons_ok _ _ (by intro c hc; cases hc; rfl)
          (failStop_fail _ e _ rfl))

/-- A call that belongs to none of the earlier phases occurs only in a run
that has passed the flag check, the reading of the configuration and both
policy loops. -/
theorem served_of_mem (w : World) (d : Call) (hd : d ∈ allCalls (main w).trace)
    (hs : d.isStartCall = false) (hb : d.isBootstrapCall = false)
    (hp : d.isPolicyCall = false) :
    configFileOf w ≠ "" ∧
    w.failOnError (readErrOf w) "Reading JSON config file into config structure" ≠ true ∧
    (addExternalAccountKeys w (configOf w).ExternalAccountMACKeys).value = some () ∧
    (addBlockedDomains w (configOf w).DomainBlocklist).value = some () := by
  rw [main_trace] at hd
  split at hd
  · have hall : (allCalls [Event.call Call.flagUsage, Event.call (Call.osExit 1)]).all
        Call.isStartCall = true := rfl
    have := List.all_eq_true.mp hall d hd
    rw [hs] at this
    cases this
  · rename_i h1
    have hsplit : ∀ X, startEvents w ++ readFailEvent w :: X =
        (startEvents w ++ [readFailEvent w]) ++ X := by intro X; simp
    rw [hsplit, allCalls_append, List.mem_append] at hd
    rcases hd with hd | hd
    · have := start_class w d hd
      rw [hs] at this
      cases this
    · split at hd
      · simp [allCalls] at hd
      · rename_i h2
        have hsplit2 : envEvents w ++ caEvents w ++ vaEvent w :: policyAndServeEvents w =
            (envEvents w ++ caEvents w ++ [vaEvent w]) ++ policyAndServeEvents w := by simp
        rw [hsplit2, allCalls_append, List.mem_append] at hd
        rcases hd with hd | hd
        · have := bootstrap_class w d hd
          rw [hb] at this
          cases this
        · unfold policyAndServeEvents at hd
          rw [allCalls_append, List.mem_append] at hd
          have hloop : ∀ e, (e ∈ (addExternalAccountKeys w
              (configOf w).ExternalAccountMACKeys).trace ∨
              e ∈ (addBlockedDomains w (configOf w).DomainBlocklist).trace) →
              d ∉ e.calls := by
            intro e he hm
            have := policy_loop_class w e he d hm
            rw [hp] at this
            cases this
          rcases hd with hd | hd
          · rw [mem_allCalls] at hd
            obtain ⟨e, he, hm⟩ := hd
            exact absurd hm (hloop e (Or.inl he))
          · split at hd
            · simp [allCalls] at hd
            · rename_i u hv1
              rw [allCalls_append, List.mem_append] at hd
              rcases hd with hd | hd
              · rw [mem_allCalls] at hd
                obtain ⟨e, he, hm⟩ := hd
                exact absurd hm (hloop e (Or.inr he))
              · split at hd
                · simp [allCalls] at hd
                · rename_i u2 hv2
                  exact ⟨h1, h2, hv1, hv2⟩

theorem addExternalAccountKeys_ok (w : World) (hF : ∀ e m, w.failOnError e m = e.isSome) :
    ∀ (l : List (String × String)), (addExternalAccountKeys w l).value = some () →
      ∀ e ∈ (addExternalAccountKeys w l).trace, ∀ c, e = Event.call c →
        c.returnedError = none := by
  intro l
  induction l with
  | nil => intro _ e he; simp [addExternalAccountKeys_nil] at he
  | cons kv rest ih =>
    obtain ⟨k, v⟩ := kv
    intro hv e he c hc
    rw [addExternalAccountKeys_cons] at hv he
    cases herr : w.addExternalAccountKeyByID k v with
    | none =>
      rw [herr, if_neg (by rw [hF]; simp)] at hv he
      simp only [List.mem_cons] at he
      rcases he with he | he | he
      · subst he; cases hc; rfl
      · subst he; cases hc; rfl
      · exact ih hv e he c hc
    | some x =>
      rw [herr, if_pos (by rw [hF]; rfl)] at hv
      cases hv

theorem addBlockedDomains_ok (w : World) (hF : ∀ e m, w.failOnError e m = e.isSome) :
    ∀ (l : List String), (addBlockedDomains w l).value = some () →
      ∀ e ∈ (addBlockedDomains w l).trace, ∀ c, e = Event.call c →
        c.returnedError = none := by
  intro l
  induction l with
  | nil => intro _ e he; simp [addBlockedDomains_nil] at he
  | cons d rest ih =>
    intro hv e he c hc
    rw [addBlockedDomains_cons] at hv he
    cases herr : w.addBlockedDomain d with
    | none =>
      rw [herr, if_neg (by rw [hF]; simp)] at hv he
      simp only [List.mem_cons] at he
      rcases he with he | he | he
      · subst he; cases hc; rfl
      · subst he; cases hc; rfl
      · exact ih hv e he c hc
    | some x =>
      rw [herr, if_pos (by rw [hF]; rfl)] at hv
      cases hv

/-- Under the assumption on `cmd.FailOnError`, a run that reaches line 117 has
seen no failed call. -/
theorem served_run_ok (w : World) (hF : ∀ e m, w.failOnError e m = e.isSome)
    (h1 : configFileOf w ≠ "")
    (h2 : w.failOnError (readErrOf w) "Reading JSON config file into config structure" ≠ true)
    (hv1 : (addExternalAccountKeys w (configOf w).ExternalAccountMACKeys).value = some ())
    (hv2 : (addBlockedDomains w (configOf w).DomainBlocklist).value = some ())
    (c : Call) (hc : Event.call c ∈ (main w).trace) : c.returnedError = none := by
  have hre : readErrOf w = none := by
    rw [hF] at h2
    cases h : readErrOf w with
    | none => rfl
    | some x => rw [h] at h2; exact absurd rfl h2
  rw [main_trace_of_served w h1 h2 hv1 hv2] at hc
  rcases List.mem_append.mp hc with hc | hc
  · simp only [startEvents, readFailEvent, hre, List.mem_append, List.mem_cons,
      List.mem_singleton, Event.call.injEq, List.not_mem_nil, or_false] at hc
    rcases hc with (hc | hc | hc) | hc <;> (subst hc; rfl)
  rcases List.mem_append.mp hc with hc | hc
  · exact bootstrap_call_ok c (bootstrap_class w c (by
      rw [mem_allCalls]
      exact ⟨_, hc, by simp [Event.calls]⟩))
  rcases List.mem_append.mp hc with hc | hc
  · exact addExternalAccountKeys_ok w hF _ hv1 _ hc c rfl
  rcases List.mem_append.mp hc with hc | hc
  · exact addBlockedDomains_ok w hF _ hv2 _ hc c rfl
  · exact (serve_call_props c (serveEvents_class w _ hc c (by simp [Event.calls]))).2.2

/-- C9: assuming `cmd.FailOnError` ends the process on a non-nil error and
returns otherwise, whenever a call of `cmd.ReadConfigFile`,
`db.AddExternalAccountKeyByID` or `db.AddBlockedDomain` in a run returns an
error, the only event after it is `cmd.FailOnError` on that error (so no later
entry is added and the failure is not skipped), and the run contains no call of
`wfe.New` and no call of `http.ListenAndServeTLS`, goroutines included. -/
theorem startup_fail_fast (w : World) (hF : ∀ e m, w.failOnError e m = e.isSome)
    (pre post : List Event) (c : Call) (err : GoError)
    (hs : (main w).trace = pre ++ .call c :: post) (hc : c.returnedError = some err) :
    (∃ m, post = [.call (.cmdFailOnError (some err) m)]) ∧
    (∀ d ∈ allCalls (main w).trace, d.isWfeNew = false ∧ d.isListen = false) := by
  refine ⟨main_failStop w hF pre post c err hs hc, ?_⟩
  intro d hd
  by_cases hdd : d.isWfeNew = false ∧ d.isListen = false
  · exact hdd
  · exfalso
    have hcls : d.isStartCall = false ∧ d.isBootstrapCall = false ∧ d.isPolicyCall = false := by
      cases d <;> simp_all [Call.isWfeNew, Call.isListen, Call.isStartCall,
        Call.isBootstrapCall, Call.isPolicyCall]
    obtain ⟨h1, h2, hv1, hv2⟩ := served_of_mem w d hd hcls.1 hcls.2.1 hcls.2.2
    have hmem : Event.call c ∈ (main w).trace := by
      rw [hs]
      simp
    have := served_run_ok w hF h1 h2 hv1 hv2 c hmem
    rw [hc] at this
    cases this

theorem startup_fail_fast_witness :
    (∃ m, (main failWorld).trace.drop 16 =
      [.call (.cmdFailOnError (some ⟨"invalid domain"⟩) m)]) ∧
    (∀ d ∈ allCalls (main failWorld).trace, d.isWfeNew = false ∧ d.isListen = false) :=
  startup_fail_fast failWorld (fun _ _ => rfl) ((main failWorld).trace.take 15)
    ((main failWorld).trace.drop 16)
    (.dbAddBlockedDomain "bad domain" (some ⟨"invalid domain"⟩)) ⟨"invalid domain"⟩
    (by decide) rfl

end Pebble
